import Mathlib

/-!
Shallow embedding of the client-side conversational session manager of the
personal-website repository (chat widget services): retry policy, remote-error
classification, audio cache, conversation-context optimizer, rate limiter and
session-storage persistence.  Each definition is translated from the TypeScript
source file named in its doc comment; theorems settle the frozen claims about
those services.
-/

namespace PersonalWebsite

/-! ### Core data model (src/components/chatbot/chatbot.types.ts) -/

/-- Message role: the TS union type `'user' | 'assistant'`. -/
inductive Role
  | user
  | assistant
deriving DecidableEq, Repr

/-- Chat message (`Message` in chatbot.types.ts): `{ id, content, role, timestamp }`.
The timestamp is a JS `Date`; we model it by its epoch-millisecond value together
with a validity flag, because `new Date(x)` always yields a `Date` object, which
is an *Invalid Date* exactly when `x` does not parse. -/
structure Message where
  id : String
  content : String
  role : Role
  timestampMs : Int
  timestampValid : Bool := true
deriving DecidableEq, Repr

/-- Error taxonomy: `ErrorType` of chatbot.types.ts extended with the TTS
variant's additional kinds (`TTSErrorState` in the TTS-enabled variant). -/
inductive ErrorType
  | network
  | timeout
  | server
  | rate_limit
  | auth
  | content
  | tts_api
  | audio_playback
  | text_too_long
  | voice_not_found
deriving DecidableEq, Repr

/-- Error value carried by failed service responses (`ErrorState`). -/
structure ErrorState where
  type : ErrorType
  message : String
  retryable : Bool
deriving DecidableEq, Repr

/-- Service response (`ApiServiceResponse<T>`): either `{success: true, data}`
or `{success: false, error}`. -/
inductive ApiServiceResponse (T : Type)
  | success (data : T)
  | failure (error : ErrorState)
deriving DecidableEq, Repr

/-! ### Retry Policy Engine (src/services/retry-service.ts) -/

/-- Retry configuration (`RetryConfig`). -/
structure RetryConfig where
  maxRetries : Nat
  baseDelay : Nat
  maxDelay : Nat
  backoffMultiplier : Nat
deriving DecidableEq, Repr

/-- The exported `DEFAULT_RETRY_CONFIG`: 3 retries, base 1000 ms, cap 10000 ms,
multiplier 2. -/
def DEFAULT_RETRY_CONFIG : RetryConfig :=
  { maxRetries := 3, baseDelay := 1000, maxDelay := 10000, backoffMultiplier := 2 }

/-- `RetryService.calculateDelay`: `min(baseDelay * backoffMultiplier ^ attempt, maxDelay)`. -/
def calculateDelay (cfg : RetryConfig) (attempt : Nat) : Nat :=
  min (cfg.baseDelay * cfg.backoffMultiplier ^ attempt) cfg.maxDelay

/-- `RetryService.shouldRetry`: no retry once `attempt >= maxRetries`; a
caller-supplied predicate overrides the default policy; by default
`network`/`timeout`/`server`/`rate_limit` retry when flagged retryable,
`auth`/`content` never retry, anything else follows its `retryable` flag. -/
def shouldRetry (cfg : RetryConfig) (error : ErrorState) (attempt : Nat)
    (customRetryCheck : Option (ErrorState → Bool)) : Bool :=
  if cfg.maxRetries ≤ attempt then
    false
  else
    match customRetryCheck with
    | some check => check error
    | none =>
      match error.type with
      | .network | .timeout | .server | .rate_limit => error.retryable
      | .auth | .content => false
      | _ => error.retryable

/-- Outcome of one invocation of the injected operation: a resolved
`ApiServiceResponse`, or a thrown exception (the source's `catch` branch wraps
the latter into a retryable `network` error). -/
inductive OpOutcome (T : Type)
  | ok (resp : ApiServiceResponse T)
  | thrown (msg : String)
deriving DecidableEq, Repr

/-- Observable trace of one `executeWithRetry` run: final response, number of
invocations of the operation, and the backoff sleeps performed between
consecutive attempts (in order). -/
structure RetryTrace (T : Type) where
  result : ApiServiceResponse T
  calls : Nat
  delays : List Nat
deriving DecidableEq, Repr

/-- The `for (let attempt = 0; attempt <= maxRetries; attempt++)` loop of
`RetryService.executeWithRetry`, with the operation indexed by attempt number.
`fuel` is the number of loop iterations still allowed (`maxRetries + 1 - attempt`
at the top-level call); the `fuel = 0` case is the source's unreachable
post-loop `return` of `lastError` (or a non-retryable `server` error). -/
def executeWithRetryGo (cfg : RetryConfig) {T : Type} (fn : Nat → OpOutcome T)
    (isRetryable : Option (ErrorState → Bool)) :
    Nat → Nat → Nat → List Nat → Option ErrorState → RetryTrace T
  | _, 0, calls, delays, lastError =>
    { result := .failure (lastError.getD
        { type := .server, message := "Maximum retry attempts exceeded", retryable := false }),
      calls := calls, delays := delays }
  | attempt, fuel + 1, calls, delays, _lastError =>
    match fn attempt with
    | .ok (.success data) =>
      { result := .success data, calls := calls + 1, delays := delays }
    | .ok (.failure error) =>
      if shouldRetry cfg error attempt isRetryable ∧ attempt < cfg.maxRetries then
        executeWithRetryGo cfg fn isRetryable (attempt + 1) fuel (calls + 1)
          (delays ++ [calculateDelay cfg attempt]) (some error)
      else
        { result := .failure error, calls := calls + 1, delays := delays }
    | .thrown msg =>
      let errorState : ErrorState := { type := .network, message := msg, retryable := true }
      if shouldRetry cfg errorState attempt isRetryable ∧ attempt < cfg.maxRetries then
        executeWithRetryGo cfg fn isRetryable (attempt + 1) fuel (calls + 1)
          (delays ++ [calculateDelay cfg attempt]) (some errorState)
      else
        { result := .failure errorState, calls := calls + 1, delays := delays }

/-- `RetryService.executeWithRetry`: run the loop from attempt 0. -/
def executeWithRetry (cfg : RetryConfig) {T : Type} (fn : Nat → OpOutcome T)
    (isRetryable : Option (ErrorState → Bool)) : RetryTrace T :=
  executeWithRetryGo cfg fn isRetryable 0 (cfg.maxRetries + 1) 0 [] none

/-- One retried iteration of the loop, when the operation fails with a
retryable error and more attempts remain. -/
theorem executeWithRetryGo_step (cfg : RetryConfig) {T : Type}
    (fn : Nat → OpOutcome T) (isRetryable : Option (ErrorState → Bool)) (e : ErrorState)
    (attempt fuel calls : Nat) (delays : List Nat) (lastError : Option ErrorState)
    (h1 : fn attempt = .ok (.failure e))
    (h2 : shouldRetry cfg e attempt isRetryable = true)
    (h3 : attempt < cfg.maxRetries) :
    executeWithRetryGo cfg fn isRetryable attempt (fuel + 1) calls delays lastError =
      executeWithRetryGo cfg fn isRetryable (attempt + 1) fuel (calls + 1)
        (delays ++ [calculateDelay cfg attempt]) (some e) := by
  simp only [executeWithRetryGo, h1]
  rw [if_pos ⟨h2, h3⟩]

/-- Final iteration of the loop: the operation fails and no attempts remain. -/
theorem executeWithRetryGo_last (cfg : RetryConfig) {T : Type}
    (fn : Nat → OpOutcome T) (isRetryable : Option (ErrorState → Bool)) (e : ErrorState)
    (attempt fuel calls : Nat) (delays : List Nat) (lastError : Option ErrorState)
    (h1 : fn attempt = .ok (.failure e))
    (h3 : cfg.maxRetries ≤ attempt) :
    executeWithRetryGo cfg fn isRetryable attempt (fuel + 1) calls delays lastError =
      { result := .failure e, calls := calls + 1, delays := delays } := by
  simp only [executeWithRetryGo, h1]
  rw [if_neg]
  intro hcontra
  exact absurd hcontra.2 (by omega)

/-- Loop unrolling for an operation that fails with the same retryable `server`
error on every invocation. -/
theorem executeWithRetryGo_const_server_failure (cfg : RetryConfig) {T : Type}
    (fn : Nat → OpOutcome T) (e : ErrorState)
    (hf : ∀ n, fn n = .ok (.failure e)) (htype : e.type = .server)
    (hretry : e.retryable = true) :
    ∀ k attempt calls delays lastError, attempt + k = cfg.maxRetries →
      executeWithRetryGo cfg fn none attempt (k + 1) calls delays lastError =
        { result := .failure e, calls := calls + k + 1,
          delays := delays ++ (List.range' attempt k).map (calculateDelay cfg) } := by
  intro k
  induction k with
  | zero =>
    intro attempt calls delays lastError hk
    rw [executeWithRetryGo_last cfg fn none e attempt 0 calls delays lastError (hf attempt)
      (by omega)]
    simp
  | succ k ih =>
    intro attempt calls delays lastError hk
    have hlt : attempt < cfg.maxRetries := by omega
    have hsr : shouldRetry cfg e attempt none = true := by
      unfold shouldRetry
      rw [if_neg (by omega)]
      rw [htype]
      exact hretry
    rw [executeWithRetryGo_step cfg fn none e attempt (k + 1) calls delays lastError
      (hf attempt) hsr hlt]
    rw [ih (attempt + 1) (calls + 1) (delays ++ [calculateDelay cfg attempt]) (some e) (by omega)]
    have hrange : List.range' attempt (k + 1) = attempt :: List.range' (attempt + 1) k := by
      simp [List.range'_succ]
    rw [hrange]
    simp only [List.map_cons, List.append_assoc, List.singleton_append]
    have hc : calls + 1 + k + 1 = calls + (k + 1) + 1 := by omega
    rw [hc]

/-- Claim C1: an injected operation that fails with a retryable `server` error on
every invocation is invoked exactly `maxRetries + 1` times by `executeWithRetry`
(no custom predicate); the sleep before attempt `n+1` is
`min(baseDelay * backoffMultiplier ^ n, maxDelay)` for `n = 0 .. maxRetries - 1`;
these delays are non-decreasing (for a multiplier of at least 1) and capped at
`maxDelay`; and the final response is the failure itself. -/
theorem retry_exhausts_on_persistent_server_error (cfg : RetryConfig) {T : Type}
    (fn : Nat → OpOutcome T) (e : ErrorState)
    (hf : ∀ n, fn n = .ok (.failure e)) (htype : e.type = .server)
    (hretry : e.retryable = true) (hmult : 1 ≤ cfg.backoffMultiplier) :
    (executeWithRetry cfg fn none).result = .failure e ∧
    (executeWithRetry cfg fn none).calls = cfg.maxRetries + 1 ∧
    (executeWithRetry cfg fn none).delays =
      (List.range cfg.maxRetries).map
        (fun n => min (cfg.baseDelay * cfg.backoffMultiplier ^ n) cfg.maxDelay) ∧
    (executeWithRetry cfg fn none).delays.Chain' (· ≤ ·) ∧
    ∀ d ∈ (executeWithRetry cfg fn none).delays, d ≤ cfg.maxDelay := by
  have hrun := executeWithRetryGo_const_server_failure cfg fn e hf htype hretry
    cfg.maxRetries 0 0 [] none (by omega)
  have hmain : executeWithRetry cfg fn none =
      { result := .failure e, calls := cfg.maxRetries + 1,
        delays := (List.range cfg.maxRetries).map (calculateDelay cfg) } := by
    unfold executeWithRetry
    rw [hrun]
    simp [List.range_eq_range']
  rw [hmain]
  refine ⟨rfl, rfl, rfl, ?_, ?_⟩
  · rw [List.chain'_map]
    cases hn : cfg.maxRetries with
    | zero => simp
    | succ n =>
      rw [List.chain'_range_succ]
      intro m _
      unfold calculateDelay
      simp only [Nat.succ_eq_add_one]
      exact min_le_min
        (Nat.mul_le_mul_left _ (Nat.pow_le_pow_right hmult (by omega))) (le_refl _)
  · intro d hd
    simp only [List.mem_map] at hd
    obtain ⟨n, _, rfl⟩ := hd
    exact min_le_right _ _

/-- A concrete persistent server failure. -/
def serverFailure : ErrorState :=
  { type := .server, message := "AI service is temporarily unavailable. Please try again.",
    retryable := true }

/-- An operation that fails with `serverFailure` on every invocation. -/
def constServerFailureOp : Nat → OpOutcome Unit :=
  fun _ => .ok (.failure serverFailure)

/-- Witness for C1 at the default configuration: four invocations, delays
1000/2000/4000 ms. -/
theorem retry_exhausts_on_persistent_server_error_witness :
    (executeWithRetry DEFAULT_RETRY_CONFIG constServerFailureOp none).result =
      .failure serverFailure ∧
    (executeWithRetry DEFAULT_RETRY_CONFIG constServerFailureOp none).calls =
      DEFAULT_RETRY_CONFIG.maxRetries + 1 ∧
    (executeWithRetry DEFAULT_RETRY_CONFIG constServerFailureOp none).delays =
      (List.range DEFAULT_RETRY_CONFIG.maxRetries).map
        (fun n => min (DEFAULT_RETRY_CONFIG.baseDelay *
          DEFAULT_RETRY_CONFIG.backoffMultiplier ^ n) DEFAULT_RETRY_CONFIG.maxDelay) ∧
    (executeWithRetry DEFAULT_RETRY_CONFIG constServerFailureOp none).delays.Chain' (· ≤ ·) ∧
    ∀ d ∈ (executeWithRetry DEFAULT_RETRY_CONFIG constServerFailureOp none).delays,
      d ≤ DEFAULT_RETRY_CONFIG.maxDelay :=
  retry_exhausts_on_persistent_server_error DEFAULT_RETRY_CONFIG
    constServerFailureOp serverFailure (fun _ => rfl) rfl rfl (by decide)

/-! ### Remote-completion error classification
(`OpenAIService` in src/unnamed/part_001, `BackendOpenAIService` in
src/services/backend-openai-service.ts) -/

/-- Parse state of the failed response body: `jsonThrew` when `response.json()`
rejected (the `switch` is skipped and the defaults stand), otherwise the
optional error message extracted from the parsed body. -/
inductive ErrorBody
  | jsonThrew
  | parsed (errMessage : Option String)
deriving DecidableEq, Repr

/-- `OpenAIService.handleAPIError` (src/unnamed/part_001): status switch run
only when the body parsed; handled statuses are 401, 429, 400 and
500/502/503/504; every other status keeps the initial
`server`/retryable defaults. -/
def OpenAIService.handleAPIError (status : Nat) (body : ErrorBody) : ErrorState :=
  let defaultMessage := "An error occurred while communicating with the AI service"
  match body with
  | .jsonThrew => { type := .server, message := defaultMessage, retryable := true }
  | .parsed errMessage =>
    if status = 401 then
      { type := .auth, message := "Invalid API key. Please check your configuration.",
        retryable := false }
    else if status = 429 then
      { type := .rate_limit, message := "Too many requests. Please wait a moment and try again.",
        retryable := true }
    else if status = 400 then
      { type := .content, message := errMessage.getD "Invalid request content.",
        retryable := false }
    else if status = 500 ∨ status = 502 ∨ status = 503 ∨ status = 504 then
      { type := .server, message := "AI service is temporarily unavailable. Please try again.",
        retryable := true }
    else
      { type := .server, message := errMessage.getD defaultMessage, retryable := true }

/-- `BackendOpenAIService.handleAPIError` (backend-openai-service.ts): same
shape but with no 401 case at all; handled statuses are 400, 429 and
500/502/503/504. -/
def BackendOpenAIService.handleAPIError (status : Nat) (body : ErrorBody) : ErrorState :=
  let defaultMessage := "An error occurred while communicating with the AI service"
  match body with
  | .jsonThrew => { type := .server, message := defaultMessage, retryable := true }
  | .parsed errMessage =>
    if status = 400 then
      { type := .content, message := errMessage.getD "Invalid request content.",
        retryable := false }
    else if status = 429 then
      { type := .rate_limit, message := "Too many requests. Please wait a moment and try again.",
        retryable := true }
    else if status = 500 ∨ status = 502 ∨ status = 503 ∨ status = 504 then
      { type := .server, message := "AI service is temporarily unavailable. Please try again.",
        retryable := true }
    else
      { type := .server, message := errMessage.getD defaultMessage, retryable := true }

/-- A thrown transport-level error as seen by `handleRequestError`: either not
an `Error` instance at all, or an `Error` with a `name` and `message`. -/
inductive ThrownValue
  | nonError
  | jsError (name : String) (message : String)
deriving DecidableEq, Repr

/-- String containment test, standing in for the JS `message.includes('fetch')`. -/
def includesFetch (s : String) : Bool :=
  2 ≤ (s.splitOn "fetch").length

/-- `handleRequestError` (identical in both services): `AbortError` maps to
`timeout`, a message mentioning `fetch` maps to `network`, anything else keeps
`network` with the thrown message; a non-`Error` value keeps the defaults. -/
def handleRequestError (err : ThrownValue) : ErrorState :=
  match err with
  | .nonError => { type := .network, message := "Failed to connect to AI service", retryable := true }
  | .jsError name message =>
    if name = "AbortError" then
      { type := .timeout, message := "Request timed out. Please try again.", retryable := true }
    else if includesFetch message then
      { type := .network, message := "Network error. Please check your connection and try again.",
        retryable := true }
    else
      { type := .network, message := message, retryable := true }

/-- Counterexample to claim C2: HTTP 403 is classified as a retryable `server`
error by `OpenAIService.handleAPIError` (and 401 likewise by
`BackendOpenAIService.handleAPIError`), not as a non-retryable `auth` error as
the claim states. -/
theorem error_classification_403_counterexample :
    (OpenAIService.handleAPIError 403 (.parsed none)).type = .server ∧
    (OpenAIService.handleAPIError 403 (.parsed none)).retryable = true ∧
    (BackendOpenAIService.handleAPIError 401 (.parsed none)).type = .server ∧
    (BackendOpenAIService.handleAPIError 401 (.parsed none)).retryable = true ∧
    ErrorType.server ≠ ErrorType.auth := by
  decide

/-- Claim C2 (amended): with a JSON-parsable error body, both services map 400
to a non-retryable `content` error, 429 to a retryable `rate_limit` error and
every 5xx status to a retryable `server` error; only `OpenAIService` maps 401
to a non-retryable `auth` error, while 403 in both services and 401 in the
backend service fall through to the retryable `server` default.  An
`AbortError` maps to `timeout` and any other thrown value maps to `network`. -/
theorem error_classification_amended :
    (∀ em, (OpenAIService.handleAPIError 400 (.parsed em)).type = .content ∧
      (OpenAIService.handleAPIError 400 (.parsed em)).retryable = false ∧
      (BackendOpenAIService.handleAPIError 400 (.parsed em)).type = .content ∧
      (BackendOpenAIService.handleAPIError 400 (.parsed em)).retryable = false) ∧
    (∀ em, (OpenAIService.handleAPIError 401 (.parsed em)).type = .auth ∧
      (OpenAIService.handleAPIError 401 (.parsed em)).retryable = false) ∧
    (∀ em, (OpenAIService.handleAPIError 429 (.parsed em)).type = .rate_limit ∧
      (OpenAIService.handleAPIError 429 (.parsed em)).retryable = true ∧
      (BackendOpenAIService.handleAPIError 429 (.parsed em)).type = .rate_limit ∧
      (BackendOpenAIService.handleAPIError 429 (.parsed em)).retryable = true) ∧
    (∀ s em, 500 ≤ s → s ≤ 599 →
      (OpenAIService.handleAPIError s (.parsed em)).type = .server ∧
      (OpenAIService.handleAPIError s (.parsed em)).retryable = true ∧
      (BackendOpenAIService.handleAPIError s (.parsed em)).type = .server ∧
      (BackendOpenAIService.handleAPIError s (.parsed em)).retryable = true) ∧
    (∀ em, (OpenAIService.handleAPIError 403 (.parsed em)).type = .server ∧
      (OpenAIService.handleAPIError 403 (.parsed em)).retryable = true ∧
      (∀ s, s ≠ 400 → s ≠ 429 →
        (BackendOpenAIService.handleAPIError s (.parsed em)).type = .server ∧
        (BackendOpenAIService.handleAPIError s (.parsed em)).retryable = true)) ∧
    (∀ msg, (handleRequestError (.jsError "AbortError" msg)).type = .timeout) ∧
    (∀ name msg, name ≠ "AbortError" → (handleRequestError (.jsError name msg)).type = .network) ∧
    (handleRequestError .nonError).type = .network := by
  refine ⟨fun em => ⟨rfl, rfl, rfl, rfl⟩, fun em => ⟨rfl, rfl⟩,
    fun em => ⟨rfl, rfl, rfl, rfl⟩, ?_, ?_, fun msg => rfl, ?_, rfl⟩
  · intro s em h5 h9
    have h401 : s ≠ 401 := by omega
    have h429 : s ≠ 429 := by omega
    have h400 : s ≠ 400 := by omega
    unfold OpenAIService.handleAPIError BackendOpenAIService.handleAPIError
    simp only [if_neg h401, if_neg h429, if_neg h400]
    by_cases h5xx : s = 500 ∨ s = 502 ∨ s = 503 ∨ s = 504
    · simp only [if_pos h5xx]
      exact ⟨trivial, trivial, trivial, trivial⟩
    · simp only [if_neg h5xx]
      exact ⟨trivial, trivial, trivial, trivial⟩
  · intro em
    refine ⟨rfl, rfl, ?_⟩
    intro s h400 h429
    unfold BackendOpenAIService.handleAPIError
    simp only [if_neg h400, if_neg h429]
    by_cases h5xx : s = 500 ∨ s = 502 ∨ s = 503 ∨ s = 504
    · simp only [if_pos h5xx]
      exact ⟨trivial, trivial⟩
    · simp only [if_neg h5xx]
      exact ⟨trivial, trivial⟩
  · intro name msg hname
    unfold handleRequestError
    simp only [if_neg hname]
    by_cases hfetch : includesFetch msg = true
    · simp only [if_pos hfetch]
    · simp only [if_neg hfetch]

/-- Witness for the amended C2 at concrete statuses (501 exercises the 5xx
hypothesis). -/
theorem error_classification_amended_witness :
    ((500:Nat) ≤ 501 ∧ (501:Nat) ≤ 599) ∧
    (OpenAIService.handleAPIError 501 (.parsed none)).type = .server ∧
    (OpenAIService.handleAPIError 501 (.parsed none)).retryable = true ∧
    (BackendOpenAIService.handleAPIError 501 (.parsed none)).type = .server ∧
    (BackendOpenAIService.handleAPIError 501 (.parsed none)).retryable = true ∧
    (handleRequestError (.jsError "TypeError" "failed to fetch")).type = .network :=
  ⟨⟨by omega, by omega⟩,
    (error_classification_amended.2.2.2.1 501 none (by omega) (by omega)).1,
    (error_classification_amended.2.2.2.1 501 none (by omega) (by omega)).2.1,
    (error_classification_amended.2.2.2.1 501 none (by omega) (by omega)).2.2.1,
    (error_classification_amended.2.2.2.1 501 none (by omega) (by omega)).2.2.2,
    error_classification_amended.2.2.2.2.2.2.1 "TypeError" "failed to fetch" (by decide)⟩

/-! ### Audio Cache (AudioCacheService, src/unnamed/part_002)

The JS `Map` is modelled as an association list in insertion order (`Map.get`
finds the first matching key, `Map.delete` removes it, `Map.set` of a fresh key
appends).  The payload bytes, object URL and text hash carried by each entry
play no role in the sizing/eviction logic and are omitted; `size` is the
payload's `byteLength`.  The source keys the map by `simpleHash` of
`trimmed-lowercased text|voice|model`; key equality is modelled by equality of
that triple. -/

/-- `TTS_CONFIG.voiceId` default (tts-config.ts). -/
def TTS_CONFIG_voiceId : String := "muNYubwBerZLKpcUGOzK"

/-- `TTS_CONFIG.modelId` default (tts-config.ts). -/
def TTS_CONFIG_modelId : String := "eleven_multilingual_v2"

/-- Cache key triple: normalized text, voice id, model id. -/
abbrev CacheKey := String × String × String

/-- `AudioCacheService.generateCacheKey`: lowercase-trim the text and fill in
the configured defaults for missing voice/model ids. -/
def generateCacheKey (text : String) (voiceId modelId : Option String) : CacheKey :=
  (text.trim.toLower, voiceId.getD TTS_CONFIG_voiceId, modelId.getD TTS_CONFIG_modelId)

/-- Cache entry metadata (`AudioCacheEntry`). -/
structure AudioCacheEntry where
  size : Nat
  timestamp : Int
  accessCount : Nat
  lastAccessed : Int
deriving DecidableEq, Repr

/-- Cache statistics (`CacheStats`); counters that the source decrements are
modelled as `Int`, exactly like JS numbers. -/
structure CacheStats where
  totalEntries : Int
  totalSize : Int
  hitCount : Nat
  missCount : Nat
  evictionCount : Nat
  memoryUsage : Int
deriving DecidableEq, Repr

/-- Cache configuration (`AudioCacheConfig`). -/
structure AudioCacheConfig where
  maxEntries : Nat
  maxSizeBytes : Nat
  maxAgeMs : Int
  cleanupIntervalMs : Int
deriving DecidableEq, Repr

/-- The constructor defaults: 50 entries, 50 MB, 30 min age, 5 min sweep. -/
def DEFAULT_AUDIO_CACHE_CONFIG : AudioCacheConfig :=
  { maxEntries := 50, maxSizeBytes := 50 * 1024 * 1024,
    maxAgeMs := 30 * 60 * 1000, cleanupIntervalMs := 5 * 60 * 1000 }

/-- Full mutable state of the service: the map plus its stats. -/
structure AudioCacheState where
  cache : List (CacheKey × AudioCacheEntry)
  stats : CacheStats
deriving DecidableEq, Repr

/-- `Map.get`: first entry with the given key. -/
def mapGet (k : CacheKey) : List (CacheKey × AudioCacheEntry) → Option AudioCacheEntry
  | [] => none
  | kv :: rest => if kv.1 = k then some kv.2 else mapGet k rest

/-- `Map.delete`: drop the first entry with the given key, keeping order. -/
def mapDelete (k : CacheKey) :
    List (CacheKey × AudioCacheEntry) → List (CacheKey × AudioCacheEntry)
  | [] => []
  | kv :: rest => if kv.1 = k then rest else kv :: mapDelete k rest

/-- `AudioCacheService.updateMemoryUsage`: `totalSize + 1 KB per entry`. -/
def updateMemoryUsage (st : AudioCacheState) : AudioCacheState :=
  { st with stats := { st.stats with
      memoryUsage := st.stats.totalSize + st.cache.length * 1024 } }

/-- `AudioCacheService.removeEntry`: delete the keyed entry (if present) and
update `totalEntries`/`totalSize`; returns whether an entry was removed. -/
def removeEntry (k : CacheKey) (st : AudioCacheState) : AudioCacheState × Bool :=
  match mapGet k st.cache with
  | none => (st, false)
  | some e =>
    ({ cache := mapDelete k st.cache,
       stats := { st.stats with
         totalEntries := st.stats.totalEntries - 1,
         totalSize := st.stats.totalSize - e.size } }, true)

/-- The `for (const [key, entry] of this.cache)` scan of
`evictLeastRecentlyUsed`: running `(oldestKey, oldestTime)` pair, seeded with
`(null, Date.now())`, updated on strict improvement. -/
def oldestScan (now : Int) (l : List (CacheKey × AudioCacheEntry)) : Option CacheKey × Int :=
  l.foldl
    (fun acc kv => if kv.2.lastAccessed < acc.2 then (some kv.1, kv.2.lastAccessed) else acc)
    ((none : Option CacheKey), now)

/-- `AudioCacheService.evictLeastRecentlyUsed`: scan the map in insertion
order for the entry with `lastAccessed` strictly below the running bound
(seeded with `Date.now()`); when one is found, remove it and count an
eviction. -/
def evictLeastRecentlyUsed (now : Int) (st : AudioCacheState) : AudioCacheState :=
  match (oldestScan now st.cache).1 with
  | none => st
  | some oldestKey =>
    let st1 := (removeEntry oldestKey st).1
    { st1 with stats := { st1.stats with evictionCount := st1.stats.evictionCount + 1 } }

/-- The `while` loop of `AudioCacheService.ensureSpace`, fuelled by the number
of entries (each successful eviction removes one entry, and with an empty cache
the loop guard is false under the configuration bounds used below). -/
def ensureSpaceGo (cfg : AudioCacheConfig) (now : Int) (requiredSize : Nat) :
    Nat → AudioCacheState → AudioCacheState
  | 0, st => st
  | fuel + 1, st =>
    if cfg.maxEntries ≤ st.cache.length ∨
        (cfg.maxSizeBytes : Int) < st.stats.totalSize + requiredSize then
      ensureSpaceGo cfg now requiredSize fuel (evictLeastRecentlyUsed now st)
    else st

/-- `AudioCacheService.ensureSpace`. -/
def ensureSpace (cfg : AudioCacheConfig) (now : Int) (requiredSize : Nat)
    (st : AudioCacheState) : AudioCacheState :=
  ensureSpaceGo cfg now requiredSize st.cache.length st

/-- `AudioCacheService.set`: reject payloads above a quarter of the size
budget (`size > maxSizeBytes / 4`, written multiplicatively since sizes are
integers); otherwise drop any existing entry under the same key, make space,
and append the new entry. -/
def AudioCacheService.set (cfg : AudioCacheConfig) (st : AudioCacheState)
    (text : String) (byteLength : Nat) (voiceId modelId : Option String)
    (now : Int) : AudioCacheState × Bool :=
  let key := generateCacheKey text voiceId modelId
  let size := byteLength
  if cfg.maxSizeBytes < size * 4 then
    (st, false)
  else
    let entry : AudioCacheEntry :=
      { size := size, timestamp := now, accessCount := 1, lastAccessed := now }
    let st1 := if (mapGet key st.cache).isSome then (removeEntry key st).1 else st
    let st2 := ensureSpace cfg now size st1
    (updateMemoryUsage
      { cache := st2.cache ++ [(key, entry)],
        stats := { st2.stats with
          totalEntries := st2.stats.totalEntries + 1,
          totalSize := st2.stats.totalSize + size } }, true)

/-- Sum of the entry sizes recorded in the map. -/
def sumSizes (l : List (CacheKey × AudioCacheEntry)) : Int :=
  (l.map (fun kv => (kv.2.size : Int))).sum

/-- The tracked `stats.totalSize` agrees with the entries actually present. -/
def SizeConsistent (st : AudioCacheState) : Prop :=
  st.stats.totalSize = sumSizes st.cache

/-- Every entry was last accessed strictly before `now` (true of any state the
service built earlier than the current call, time being monotone). -/
def AllAccessedBefore (now : Int) (st : AudioCacheState) : Prop :=
  ∀ kv ∈ st.cache, kv.2.lastAccessed < now

/-- Map keys are distinct, as in any JS `Map`. -/
def KeysNodup (st : AudioCacheState) : Prop :=
  (st.cache.map Prod.fst).Nodup

instance (st : AudioCacheState) : Decidable (SizeConsistent st) := by
  unfold SizeConsistent; infer_instance

instance (now : Int) (st : AudioCacheState) : Decidable (AllAccessedBefore now st) := by
  unfold AllAccessedBefore; infer_instance

instance (st : AudioCacheState) : Decidable (KeysNodup st) := by
  unfold KeysNodup; infer_instance

/-- A `mapGet` hit is a member of the list. -/
theorem mapGet_mem {k : CacheKey} :
    ∀ {l : List (CacheKey × AudioCacheEntry)} {e}, mapGet k l = some e → (k, e) ∈ l := by
  intro l
  induction l with
  | nil => intro e h; simp [mapGet] at h
  | cons kv rest ih =>
    obtain ⟨k0, e0⟩ := kv
    intro e h
    unfold mapGet at h
    dsimp only at h
    by_cases hk : k0 = k
    · rw [if_pos hk] at h
      injection h with h2
      rw [List.mem_cons]
      left
      rw [hk, h2]
    · rw [if_neg hk] at h
      exact List.mem_cons_of_mem _ (ih h)

/-- A present key yields a `mapGet` hit. -/
theorem mapGet_isSome_of_mem {k : CacheKey} {e : AudioCacheEntry} :
    ∀ {l : List (CacheKey × AudioCacheEntry)}, (k, e) ∈ l → ∃ e2, mapGet k l = some e2 := by
  intro l
  induction l with
  | nil => intro h; simp at h
  | cons kv rest ih =>
    obtain ⟨k0, e0⟩ := kv
    intro h
    unfold mapGet
    dsimp only
    by_cases hk : k0 = k
    · exact ⟨e0, by rw [if_pos hk]⟩
    · rw [if_neg hk]
      rcases List.mem_cons.mp h with heq | hmem
      · injection heq with h1 h2
        exact absurd h1.symm hk
      · exact ih hmem

/-- With distinct keys, two members sharing a key coincide. -/
theorem mem_key_unique :
    ∀ {l : List (CacheKey × AudioCacheEntry)} {k a b}, (l.map Prod.fst).Nodup →
      (k, a) ∈ l → (k, b) ∈ l → a = b := by
  intro l
  induction l with
  | nil => intro k a b _ ha; simp at ha
  | cons kv rest ih =>
    obtain ⟨k0, e0⟩ := kv
    intro k a b hnodup ha hb
    rw [List.map_cons, List.nodup_cons] at hnodup
    dsimp only at hnodup
    rcases List.mem_cons.mp ha with haeq | hamem
    · rcases List.mem_cons.mp hb with hbeq | hbmem
      · injection haeq with _ ha2
        injection hbeq with _ hb2
        rw [ha2, hb2]
      · exfalso
        injection haeq with hk1 _
        have hmem2 : k ∈ List.map Prod.fst rest := by
          have := List.mem_map_of_mem Prod.fst hbmem
          simpa using this
        rw [hk1] at hmem2
        exact hnodup.1 hmem2
    · rcases List.mem_cons.mp hb with hbeq | hbmem
      · exfalso
        injection hbeq with hk1 _
        have hmem2 : k ∈ List.map Prod.fst rest := by
          have := List.mem_map_of_mem Prod.fst hamem
          simpa using this
        rw [hk1] at hmem2
        exact hnodup.1 hmem2
      · exact ih hnodup.2 hamem hbmem

/-- `mapDelete` yields a sublist. -/
theorem mapDelete_sublist (k : CacheKey) :
    ∀ l : List (CacheKey × AudioCacheEntry), List.Sublist (mapDelete k l) l := by
  intro l
  induction l with
  | nil => simp [mapDelete]
  | cons kv rest ih =>
    unfold mapDelete
    by_cases hk : kv.1 = k
    · rw [if_pos hk]
      exact List.sublist_cons_self kv rest
    · rw [if_neg hk]
      exact List.Sublist.cons₂ kv ih

/-- Deleting a hit key shortens the list by exactly one. -/
theorem mapDelete_length {k : CacheKey} :
    ∀ {l : List (CacheKey × AudioCacheEntry)} {e}, mapGet k l = some e →
      (mapDelete k l).length + 1 = l.length := by
  intro l
  induction l with
  | nil => intro e h; simp [mapGet] at h
  | cons kv rest ih =>
    intro e h
    unfold mapGet at h
    unfold mapDelete
    by_cases hk : kv.1 = k
    · rw [if_pos hk]
      simp
    · rw [if_neg hk] at h ⊢
      simp only [List.length_cons]
      rw [← ih h]

/-- Deleting a hit key removes exactly its size from the size sum. -/
theorem sumSizes_mapDelete {k : CacheKey} :
    ∀ {l : List (CacheKey × AudioCacheEntry)} {e}, mapGet k l = some e →
      sumSizes (mapDelete k l) = sumSizes l - e.size := by
  intro l
  induction l with
  | nil => intro e h; simp [mapGet] at h
  | cons kv rest ih =>
    intro e h
    unfold mapGet at h
    unfold mapDelete
    by_cases hk : kv.1 = k
    · rw [if_pos hk] at h ⊢
      cases h
      simp [sumSizes]
    · rw [if_neg hk] at h ⊢
      simp only [sumSizes, List.map_cons, List.sum_cons]
      have := ih h
      simp only [sumSizes] at this
      rw [this]
      ring

/-- The scan accumulator only improves, bounds every visited entry, and is
either the seed or comes from a visited entry. -/
theorem oldestScanFoldAux :
    ∀ (l : List (CacheKey × AudioCacheEntry)) (acc : Option CacheKey × Int),
      (l.foldl
        (fun acc kv => if kv.2.lastAccessed < acc.2 then (some kv.1, kv.2.lastAccessed) else acc)
        acc).2 ≤ acc.2 ∧
      (∀ kv ∈ l, (l.foldl
        (fun acc kv => if kv.2.lastAccessed < acc.2 then (some kv.1, kv.2.lastAccessed) else acc)
        acc).2 ≤ kv.2.lastAccessed) ∧
      ((l.foldl
        (fun acc kv => if kv.2.lastAccessed < acc.2 then (some kv.1, kv.2.lastAccessed) else acc)
        acc) = acc ∨
        ∃ kv, kv ∈ l ∧ (l.foldl
          (fun acc kv => if kv.2.lastAccessed < acc.2 then (some kv.1, kv.2.lastAccessed) else acc)
          acc) = (some kv.1, kv.2.lastAccessed)) := by
  intro l
  induction l with
  | nil => intro acc; exact ⟨le_refl _, by simp, Or.inl rfl⟩
  | cons kv0 rest ih =>
    intro acc
    simp only [List.foldl_cons]
    by_cases hlt : kv0.2.lastAccessed < acc.2
    · rw [if_pos hlt]
      obtain ⟨h1, h2, h3⟩ := ih (some kv0.1, kv0.2.lastAccessed)
      refine ⟨le_trans h1 (le_of_lt hlt), ?_, ?_⟩
      · intro kv hkv
        rcases List.mem_cons.mp hkv with heq | hmem
        · rw [heq]; exact h1
        · exact h2 kv hmem
      · rcases h3 with heq | ⟨kv, hkv, heq⟩
        · exact Or.inr ⟨kv0, List.mem_cons_self kv0 rest, heq⟩
        · exact Or.inr ⟨kv, List.mem_cons_of_mem _ hkv, heq⟩
    · rw [if_neg hlt]
      obtain ⟨h1, h2, h3⟩ := ih acc
      push_neg at hlt
      refine ⟨h1, ?_, ?_⟩
      · intro kv hkv
        rcases List.mem_cons.mp hkv with heq | hmem
        · rw [heq]; exact le_trans h1 hlt
        · exact h2 kv hmem
      · rcases h3 with heq | ⟨kv, hkv, heq⟩
        · exact Or.inl heq
        · exact Or.inr ⟨kv, List.mem_cons_of_mem _ hkv, heq⟩

/-- On a nonempty map whose entries were all accessed strictly before `now`,
the scan returns a key achieving the minimum `lastAccessed`. -/
theorem oldestScan_spec (now : Int) (l : List (CacheKey × AudioCacheEntry))
    (hne : l ≠ []) (hacc : ∀ kv ∈ l, kv.2.lastAccessed < now) :
    ∃ kv, kv ∈ l ∧ oldestScan now l = (some kv.1, kv.2.lastAccessed) ∧
      ∀ kv2 ∈ l, kv.2.lastAccessed ≤ kv2.2.lastAccessed := by
  obtain ⟨h1, h2, h3⟩ := oldestScanFoldAux l ((none : Option CacheKey), now)
  rcases h3 with heq | ⟨kv, hkv, heq⟩
  · exfalso
    cases l with
    | nil => exact hne rfl
    | cons kv0 rest =>
      have := h2 kv0 (List.mem_cons_self kv0 rest)
      rw [heq] at this
      exact absurd (hacc kv0 (List.mem_cons_self kv0 rest)) (not_lt.mpr this)
  · refine ⟨kv, hkv, heq, ?_⟩
    intro kv2 hkv2
    have := h2 kv2 hkv2
    rw [heq] at this
    exact this

/-- On a nonempty, well-formed map, `evictLeastRecentlyUsed` removes exactly
one entry achieving the minimum `lastAccessed`, adjusts the size/entry
counters by that entry, and counts one eviction. -/
theorem evictLRU_spec (now : Int) (st : AudioCacheState)
    (hne : st.cache ≠ []) (hacc : AllAccessedBefore now st) (hnodup : KeysNodup st) :
    ∃ k e, mapGet k st.cache = some e ∧
      (∀ kv ∈ st.cache, e.lastAccessed ≤ kv.2.lastAccessed) ∧
      evictLeastRecentlyUsed now st =
        { cache := mapDelete k st.cache,
          stats := { st.stats with
            totalEntries := st.stats.totalEntries - 1,
            totalSize := st.stats.totalSize - e.size,
            evictionCount := st.stats.evictionCount + 1 } } := by
  obtain ⟨kv, hkv, hscan, hmin⟩ := oldestScan_spec now st.cache hne hacc
  obtain ⟨e2, hget⟩ := mapGet_isSome_of_mem (k := kv.1) (e := kv.2) (by
    cases kv; exact hkv)
  have he2 : e2 = kv.2 := mem_key_unique hnodup (mapGet_mem hget) (by cases kv; exact hkv)
  refine ⟨kv.1, e2, hget, by rw [he2]; exact hmin, ?_⟩
  unfold evictLeastRecentlyUsed
  rw [hscan]
  simp only [removeEntry, hget]

/-- The eviction loop, run with fuel covering the number of entries, restores
both space constraints while preserving well-formedness. -/
theorem ensureSpaceGo_post (cfg : AudioCacheConfig) (now : Int) (size : Nat)
    (h1 : 1 ≤ cfg.maxEntries) (h4 : size * 4 ≤ cfg.maxSizeBytes) :
    ∀ fuel st, st.cache.length ≤ fuel → SizeConsistent st → AllAccessedBefore now st →
      KeysNodup st →
      SizeConsistent (ensureSpaceGo cfg now size fuel st) ∧
      AllAccessedBefore now (ensureSpaceGo cfg now size fuel st) ∧
      KeysNodup (ensureSpaceGo cfg now size fuel st) ∧
      (ensureSpaceGo cfg now size fuel st).cache.length < cfg.maxEntries ∧
      (ensureSpaceGo cfg now size fuel st).stats.totalSize + size ≤ (cfg.maxSizeBytes : Int) := by
  intro fuel
  induction fuel with
  | zero =>
    intro st hlen hcons hacc hnodup
    have hempty : st.cache = [] := List.length_eq_zero.mp (Nat.le_zero.mp hlen)
    have hzero : st.stats.totalSize = 0 := by
      rw [hcons, hempty]
      simp [sumSizes]
    refine ⟨hcons, hacc, hnodup, ?_, ?_⟩
    · simpa [ensureSpaceGo, hempty] using h1
    · simp only [ensureSpaceGo, hzero, zero_add]
      have : (size : Int) ≤ (cfg.maxSizeBytes : Int) := by
        have : size ≤ cfg.maxSizeBytes := by omega
        exact_mod_cast this
      exact this
  | succ fuel ih =>
    intro st hlen hcons hacc hnodup
    by_cases hcond : cfg.maxEntries ≤ st.cache.length ∨
        (cfg.maxSizeBytes : Int) < st.stats.totalSize + size
    · have hne : st.cache ≠ [] := by
        intro hempty
        have hzero : st.stats.totalSize = 0 := by
          rw [hcons, hempty]; simp [sumSizes]
        rcases hcond with hc1 | hc2
        · rw [hempty] at hc1
          simp at hc1
          omega
        · rw [hzero, zero_add] at hc2
          have : (size : Int) ≤ (cfg.maxSizeBytes : Int) := by
            have : size ≤ cfg.maxSizeBytes := by omega
            exact_mod_cast this
          omega
      obtain ⟨k, e, hget, _, hevict⟩ := evictLRU_spec now st hne hacc hnodup
      have hstep : ensureSpaceGo cfg now size (fuel + 1) st =
          ensureSpaceGo cfg now size fuel (evictLeastRecentlyUsed now st) := by
        show (if cfg.maxEntries ≤ st.cache.length ∨
            (cfg.maxSizeBytes : Int) < st.stats.totalSize + size then
          ensureSpaceGo cfg now size fuel (evictLeastRecentlyUsed now st) else st) = _
        rw [if_pos hcond]
      rw [hstep, hevict]
      apply ih
      · have := mapDelete_length hget
        simp only
        omega
      · show _ = sumSizes (mapDelete k st.cache)
        rw [sumSizes_mapDelete hget]
        simp only
        rw [hcons]
      · intro kv hkv
        exact hacc kv ((mapDelete_sublist k st.cache).mem hkv)
      · show ((mapDelete k st.cache).map Prod.fst).Nodup
        exact List.Nodup.sublist (List.Sublist.map Prod.fst (mapDelete_sublist k st.cache)) hnodup
    · have hstop : ensureSpaceGo cfg now size (fuel + 1) st = st := by
        show (if cfg.maxEntries ≤ st.cache.length ∨
            (cfg.maxSizeBytes : Int) < st.stats.totalSize + size then
          ensureSpaceGo cfg now size fuel (evictLeastRecentlyUsed now st) else st) = _
        rw [if_neg hcond]
      push_neg at hcond
      rw [hstop]
      exact ⟨hcons, hacc, hnodup, by omega, hcond.2⟩

/-- Claim C3: after any single `AudioCacheService.set` on a well-formed state,
`stats.totalSize ≤ maxSizeBytes` and the entry count stays within `maxEntries`;
a payload whose `byteLength` exceeds a quarter of the size budget is rejected
without touching the state; and whenever eviction runs, the entry removed first
achieves the minimum `lastAccessed` among current entries. -/
theorem audioCache_set_bounds_and_lru (cfg : AudioCacheConfig) (st : AudioCacheState)
    (text : String) (byteLength : Nat) (voiceId modelId : Option String) (now : Int)
    (hcons : SizeConsistent st) (hacc : AllAccessedBefore now st) (hnodup : KeysNodup st)
    (hsize : st.stats.totalSize ≤ (cfg.maxSizeBytes : Int))
    (hcount : st.cache.length ≤ cfg.maxEntries)
    (hmax : 1 ≤ cfg.maxEntries) :
    ((AudioCacheService.set cfg st text byteLength voiceId modelId now).1.stats.totalSize ≤
        (cfg.maxSizeBytes : Int) ∧
      (AudioCacheService.set cfg st text byteLength voiceId modelId now).1.cache.length ≤
        cfg.maxEntries) ∧
    (cfg.maxSizeBytes < byteLength * 4 →
      AudioCacheService.set cfg st text byteLength voiceId modelId now = (st, false)) ∧
    (st.cache ≠ [] →
      ∃ k e, mapGet k st.cache = some e ∧
        (∀ kv ∈ st.cache, e.lastAccessed ≤ kv.2.lastAccessed) ∧
        (evictLeastRecentlyUsed now st).cache = mapDelete k st.cache) := by
  refine ⟨?_, ?_, ?_⟩
  · by_cases hbig : cfg.maxSizeBytes < byteLength * 4
    · have hset : AudioCacheService.set cfg st text byteLength voiceId modelId now =
          (st, false) := by
        unfold AudioCacheService.set
        rw [if_pos hbig]
      rw [hset]
      exact ⟨hsize, hcount⟩
    · have h4 : byteLength * 4 ≤ cfg.maxSizeBytes := by omega
      set key := generateCacheKey text voiceId modelId with hkeydef
      set st1 := if (mapGet key st.cache).isSome then (removeEntry key st).1 else st
        with hst1def
      set st2 := ensureSpace cfg now byteLength st1 with hst2def
      have hset : AudioCacheService.set cfg st text byteLength voiceId modelId now =
          (updateMemoryUsage
            { cache := st2.cache ++
                [(key, { size := byteLength, timestamp := now,
                         accessCount := 1, lastAccessed := now })],
              stats := { st2.stats with
                totalEntries := st2.stats.totalEntries + 1,
                totalSize := st2.stats.totalSize + byteLength } }, true) := by
        unfold AudioCacheService.set
        rw [if_neg hbig]
      have hinv1 : SizeConsistent st1 ∧ AllAccessedBefore now st1 ∧ KeysNodup st1 := by
        rw [hst1def]
        by_cases hhit : (mapGet key st.cache).isSome
        · rw [if_pos hhit]
          obtain ⟨e, hget⟩ := Option.isSome_iff_exists.mp hhit
          have hrm : removeEntry key st =
              ({ cache := mapDelete key st.cache,
                 stats := { st.stats with
                   totalEntries := st.stats.totalEntries - 1,
                   totalSize := st.stats.totalSize - e.size } }, true) := by
            unfold removeEntry
            rw [hget]
          rw [hrm]
          refine ⟨?_, ?_, ?_⟩
          · show _ = sumSizes (mapDelete key st.cache)
            rw [sumSizes_mapDelete hget]
            dsimp only
            rw [hcons]
          · intro kv hkv
            exact hacc kv ((mapDelete_sublist key st.cache).mem hkv)
          · exact List.Nodup.sublist
              (List.Sublist.map Prod.fst (mapDelete_sublist key st.cache)) hnodup
        · rw [if_neg hhit]
          exact ⟨hcons, hacc, hnodup⟩
      obtain ⟨_, _, _, hlen2, hsize2⟩ := ensureSpaceGo_post cfg now byteLength hmax h4
        st1.cache.length st1 (le_refl _) hinv1.1 hinv1.2.1 hinv1.2.2
      rw [hset]
      constructor
      · simp only [updateMemoryUsage]
        rw [hst2def]
        unfold ensureSpace
        exact hsize2
      · simp only [updateMemoryUsage, List.length_append, List.length_singleton]
        rw [hst2def]
        unfold ensureSpace
        omega
  · intro hbig
    unfold AudioCacheService.set
    rw [if_pos hbig]
  · intro hne
    obtain ⟨k, e, hget, hmin, hevict⟩ := evictLRU_spec now st hne hacc hnodup
    exact ⟨k, e, hget, hmin, by rw [hevict]⟩

/-- A small cache configuration used to exercise `set`: 2 entries, 100 bytes. -/
def witnessCacheCfg : AudioCacheConfig :=
  { maxEntries := 2, maxSizeBytes := 100, maxAgeMs := 1000000, cleanupIntervalMs := 1000000 }

/-- A full two-entry cache state (sizes 40 and 50 bytes, accessed at 1 and 2). -/
def witnessCacheState : AudioCacheState :=
  { cache := [(("a", "v", "m"), { size := 40, timestamp := 0, accessCount := 1, lastAccessed := 1 }),
              (("b", "v", "m"), { size := 50, timestamp := 0, accessCount := 1, lastAccessed := 2 })],
    stats := { totalEntries := 2, totalSize := 90, hitCount := 0, missCount := 0,
               evictionCount := 0, memoryUsage := 0 } }

/-- Witness for C3: inserting a 20-byte payload into the full two-entry cache
keeps both bounds, a 26-byte-quarter violation is rejected unchanged, and the
first eviction removes the `lastAccessed = 1` entry. -/
theorem audioCache_set_bounds_and_lru_witness :
    (((AudioCacheService.set witnessCacheCfg witnessCacheState "c" 20 (some "v") (some "m")
          10).1.stats.totalSize ≤ ((witnessCacheCfg.maxSizeBytes : Int))) ∧
      (AudioCacheService.set witnessCacheCfg witnessCacheState "c" 20 (some "v") (some "m")
          10).1.cache.length ≤ witnessCacheCfg.maxEntries) ∧
    (witnessCacheCfg.maxSizeBytes < 20 * 4 →
      AudioCacheService.set witnessCacheCfg witnessCacheState "c" 20 (some "v") (some "m") 10 =
        (witnessCacheState, false)) ∧
    (witnessCacheState.cache ≠ [] →
      ∃ k e, mapGet k witnessCacheState.cache = some e ∧
        (∀ kv ∈ witnessCacheState.cache, e.lastAccessed ≤ kv.2.lastAccessed) ∧
        (evictLeastRecentlyUsed 10 witnessCacheState).cache =
          mapDelete k witnessCacheState.cache) :=
  audioCache_set_bounds_and_lru witnessCacheCfg witnessCacheState "c" 20 (some "v") (some "m")
    10 (by decide) (by decide) (by decide) (by decide) (by decide) (by decide)

/-! ### Conversation Context Optimizer (ConversationContextService,
conversation-context-service.ts, embedded in src/services/audio-manager.ts) -/

/-- Token-estimation constant `CHARS_PER_TOKEN`. -/
def CHARS_PER_TOKEN : Nat := 4

/-- Token-estimation constant `SYSTEM_PROMPT_TOKEN_ESTIMATE`. -/
def SYSTEM_PROMPT_TOKEN_ESTIMATE : Nat := 200

/-- Token-estimation constant `MESSAGE_OVERHEAD_TOKENS`. -/
def MESSAGE_OVERHEAD_TOKENS : Nat := 10

/-- `ConversationContextService.estimateTokens`: system-prompt allowance plus
`ceil(chars / 4) + overhead` per message (`Math.ceil` written as integer
arithmetic). -/
def estimateTokens (messages : List Message) : Nat :=
  messages.foldl
    (fun totalTokens message =>
      totalTokens + ((message.content.length + (CHARS_PER_TOKEN - 1)) / CHARS_PER_TOKEN +
        MESSAGE_OVERHEAD_TOKENS))
    SYSTEM_PROMPT_TOKEN_ESTIMATE

/-- Per-message summand of `estimateTokens`. -/
def messageCost (message : Message) : Nat :=
  (message.content.length + (CHARS_PER_TOKEN - 1)) / CHARS_PER_TOKEN + MESSAGE_OVERHEAD_TOKENS

/-- JS `arr.slice(-k)`.  Note `-0 === 0` in JS, so `slice(-0)` is `slice(0)`,
the whole array — the `k = 0` case therefore keeps everything. -/
def jsSliceLast {α : Type} (k : Nat) (l : List α) : List α :=
  if k = 0 then l else l.drop (l.length - k)

/-- Step (1) of `optimizeContext`: cap the message count, keeping the most
recent (`slice(-maxMessages)`) or the earliest (`slice(0, maxMessages)`). -/
def applyMessageLimit (messages : List Message) (maxMessages : Nat)
    (prioritizeRecent : Bool) : List Message :=
  if maxMessages < messages.length then
    if prioritizeRecent then jsSliceLast maxMessages messages
    else messages.take maxMessages
  else messages

/-- The `while` loop of `ConversationContextService.reduceTokens`, fuelled by
the number of messages (each iteration drops one message and the loop stops at
one message at the latest). -/
def reduceTokensGo (maxTokens : Nat) (prioritizeRecent : Bool) :
    Nat → List Message → List Message
  | 0, l => l
  | fuel + 1, l =>
    if maxTokens < estimateTokens l ∧ 1 < l.length then
      reduceTokensGo maxTokens prioritizeRecent fuel
        (if prioritizeRecent then l.drop 1 else l.dropLast)
    else l

/-- `ConversationContextService.reduceTokens`. -/
def reduceTokens (messages : List Message) (maxTokens : Nat)
    (prioritizeRecent : Bool) : List Message :=
  if messages.length = 0 then messages
  else reduceTokensGo maxTokens prioritizeRecent messages.length messages

/-- `ConversationContextService.ensureConversationFlow`: indexed loop over the
input with a `validatedMessages` accumulator; the `i === 0` case is exactly the
case where the accumulator is still empty (the first push makes it permanently
nonempty), and `previousMessage` is the accumulator's last element. -/
def ensureConversationFlow (messages : List Message) : List Message :=
  messages.foldl
    (fun validatedMessages message =>
      match validatedMessages.getLast? with
      | none => validatedMessages ++ [message]
      | some previousMessage =>
        if message.role ≠ previousMessage.role then validatedMessages ++ [message]
        else if message.role = Role.user then validatedMessages ++ [message]
        else validatedMessages)
    []

/-- Result record of `optimizeContext` (`ConversationContext`). -/
structure ConversationContext where
  messages : List Message
  tokenEstimate : Nat
  contextWindow : Nat
deriving DecidableEq, Repr

/-- `ConversationContextService.optimizeContext`: cap message count, reduce to
the token budget when exceeded (recomputing the estimate), then post-process
for conversation flow.  The returned `tokenEstimate` is the one computed before
the flow pass, exactly as in the source. -/
def optimizeContext (messages : List Message) (maxMessages maxTokens : Nat)
    (prioritizeRecent : Bool) : ConversationContext :=
  let optimizedMessages := applyMessageLimit messages maxMessages prioritizeRecent
  let tokenEstimate := estimateTokens optimizedMessages
  let step2 :=
    if maxTokens < tokenEstimate then
      let reduced := reduceTokens optimizedMessages maxTokens prioritizeRecent
      (reduced, estimateTokens reduced)
    else (optimizedMessages, tokenEstimate)
  let finalMessages := ensureConversationFlow step2.1
  { messages := finalMessages, tokenEstimate := step2.2,
    contextWindow := finalMessages.length }

instance : Inhabited Message :=
  ⟨{ id := "", content := "", role := Role.user, timestampMs := 0, timestampValid := true }⟩

/-- The single message that the token-reduction loop can never drop: the last
message when prioritizing recent messages, the first otherwise. -/
def survivorMessage (prioritizeRecent : Bool) (l : List Message) : Message :=
  if prioritizeRecent then (l.getLast?).getD default else (l.head?).getD default

/-- Duplicate-role post-processing as worded by the specification: keep the
first message unconditionally, then keep each message exactly when its role
differs from the immediately preceding kept message or it is a user message. -/
def claimFlowGo (precedingKept : Message) : List Message → List Message
  | [] => []
  | m :: rest =>
    if m.role ≠ precedingKept.role ∨ m.role = Role.user then m :: claimFlowGo m rest
    else claimFlowGo precedingKept rest

/-- Top level of the specification-worded duplicate-role post-processing. -/
def claimFlow : List Message → List Message
  | [] => []
  | first :: rest => first :: claimFlowGo first rest

/-- Unfolding equation of `claimFlowGo` on a cons cell. -/
theorem claimFlowGo_cons (prev m : Message) (rest : List Message) :
    claimFlowGo prev (m :: rest) =
      if m.role ≠ prev.role ∨ m.role = Role.user then m :: claimFlowGo m rest
      else claimFlowGo prev rest := rfl

/-- The source's accumulator loop agrees with the specification-worded
recursion once the accumulator is nonempty, `prev` being its last element. -/
theorem flow_foldl_bridge :
    ∀ (rest : List Message) (acc : List Message) (prev : Message),
      acc.getLast? = some prev →
      rest.foldl
        (fun validatedMessages message =>
          match validatedMessages.getLast? with
          | none => validatedMessages ++ [message]
          | some previousMessage =>
            if message.role ≠ previousMessage.role then validatedMessages ++ [message]
            else if message.role = Role.user then validatedMessages ++ [message]
            else validatedMessages)
        acc = acc ++ claimFlowGo prev rest := by
  intro rest
  induction rest with
  | nil => intro acc prev _; simp [claimFlowGo]
  | cons m rest ih =>
    intro acc prev hlast
    simp only [List.foldl_cons, hlast]
    by_cases hrole : m.role = prev.role
    · rw [if_neg (by simpa using hrole)]
      by_cases huser : m.role = Role.user
      · rw [if_pos huser]
        rw [ih (acc ++ [m]) m (List.getLast?_concat acc)]
        rw [claimFlowGo_cons, if_pos (Or.inr huser)]
        simp
      · rw [if_neg huser]
        rw [ih acc prev hlast]
        rw [claimFlowGo_cons, if_neg (by
          push_neg
          exact ⟨by simpa using hrole, huser⟩)]
    · rw [if_pos (by simpa using hrole)]
      rw [ih (acc ++ [m]) m (List.getLast?_concat acc)]
      rw [claimFlowGo_cons, if_pos (Or.inl hrole)]
      simp

/-- `ensureConversationFlow` computes exactly the specification-worded
keep-or-drop rule. -/
theorem ensureConversationFlow_eq_claimFlow (l : List Message) :
    ensureConversationFlow l = claimFlow l := by
  cases l with
  | nil => rfl
  | cons first rest =>
    unfold ensureConversationFlow claimFlow
    simp only [List.foldl_cons, List.getLast?_nil, List.nil_append]
    rw [flow_foldl_bridge rest [first] first rfl]
    simp

/-- The kept list never has two consecutive assistant messages, starting from
any previously kept message. -/
theorem claimFlowGo_chain :
    ∀ (rest : List Message) (prev : Message),
      List.Chain' (fun a b => ¬(a.role = Role.assistant ∧ b.role = Role.assistant))
        (prev :: claimFlowGo prev rest) := by
  intro rest
  induction rest with
  | nil => intro prev; simp [claimFlowGo]
  | cons m rest ih =>
    intro prev
    unfold claimFlowGo
    by_cases hcond : m.role ≠ prev.role ∨ m.role = Role.user
    · rw [if_pos hcond]
      rw [List.chain'_cons]
      refine ⟨?_, ih m⟩
      intro ⟨hprev, hm⟩
      rcases hcond with hne | huser
      · exact hne (hm.trans hprev.symm)
      · rw [huser] at hm
        exact Role.noConfusion hm
    · rw [if_neg hcond]
      exact ih prev

/-- Every user message survives the duplicate-role pass. -/
theorem claimFlowGo_filter_user :
    ∀ (rest : List Message) (prev : Message),
      (claimFlowGo prev rest).filter (fun m => decide (m.role = Role.user)) =
        rest.filter (fun m => decide (m.role = Role.user)) := by
  intro rest
  induction rest with
  | nil => intro prev; rfl
  | cons m rest ih =>
    intro prev
    rw [claimFlowGo_cons]
    by_cases hcond : m.role ≠ prev.role ∨ m.role = Role.user
    · rw [if_pos hcond]
      rw [List.filter_cons, List.filter_cons, ih m]
    · rw [if_neg hcond]
      push_neg at hcond
      rw [ih prev, List.filter_cons]
      rw [decide_eq_false hcond.2]
      simp

/-- Claim C5: the duplicate-role post-processing keeps the first message
unconditionally and keeps each subsequent message exactly when its role
differs from the immediately preceding kept message or it is a user message
(stated as equality with the specification-worded rule); consequently the
output never contains two consecutive assistant messages, and all user
messages — consecutive ones included — are retained. -/
theorem conversationFlow_keep_rule (l : List Message) :
    ensureConversationFlow l = claimFlow l ∧
    List.Chain' (fun a b => ¬(a.role = Role.assistant ∧ b.role = Role.assistant))
      (ensureConversationFlow l) ∧
    (ensureConversationFlow l).filter (fun m => decide (m.role = Role.user)) =
      l.filter (fun m => decide (m.role = Role.user)) := by
  refine ⟨ensureConversationFlow_eq_claimFlow l, ?_, ?_⟩
  · rw [ensureConversationFlow_eq_claimFlow l]
    cases l with
    | nil => simp [claimFlow]
    | cons first rest =>
      unfold claimFlow
      exact claimFlowGo_chain rest first
  · rw [ensureConversationFlow_eq_claimFlow l]
    cases l with
    | nil => rfl
    | cons first rest =>
      unfold claimFlow
      rw [List.filter_cons, List.filter_cons, claimFlowGo_filter_user rest first]

/-- `estimateTokens` is the system-prompt allowance plus the sum of the
per-message costs (fold-to-sum bridge). -/
theorem estimateTokens_foldl :
    ∀ (l : List Message) (a : Nat),
      l.foldl
        (fun totalTokens message =>
          totalTokens + ((message.content.length + (CHARS_PER_TOKEN - 1)) / CHARS_PER_TOKEN +
            MESSAGE_OVERHEAD_TOKENS)) a =
      a + (l.map messageCost).sum := by
  intro l
  induction l with
  | nil => intro a; simp
  | cons m rest ih =>
    intro a
    simp only [List.foldl_cons, List.map_cons, List.sum_cons]
    rw [ih]
    unfold messageCost
    omega

/-- Closed form of `estimateTokens`. -/
theorem estimateTokens_eq_sum (l : List Message) :
    estimateTokens l = SYSTEM_PROMPT_TOKEN_ESTIMATE + (l.map messageCost).sum :=
  estimateTokens_foldl l _

/-- The estimate of a singleton member never exceeds the estimate of the list. -/
theorem estimate_single_le {x : Message} {l : List Message} (hx : x ∈ l) :
    estimateTokens [x] ≤ estimateTokens l := by
  rw [estimateTokens_eq_sum, estimateTokens_eq_sum]
  simp only [List.map_cons, List.map_nil, List.sum_cons, List.sum_nil, add_zero]
  have : messageCost x ≤ (l.map messageCost).sum :=
    List.single_le_sum (fun a _ => Nat.zero_le a) _ (List.mem_map_of_mem messageCost hx)
  omega

/-- A `getLast?` hit is a member. -/
theorem mem_of_getLast?_some {α : Type} {l : List α} {a : α} (h : l.getLast? = some a) :
    a ∈ l := by
  obtain ⟨hne, heq⟩ := List.mem_getLast?_eq_getLast (Option.mem_def.mpr h)
  rw [heq]
  exact List.getLast_mem hne

/-- A `head?` hit is a member. -/
theorem mem_of_head?_some {α : Type} {l : List α} {a : α} (h : l.head? = some a) : a ∈ l := by
  cases l with
  | nil => simp at h
  | cons b t =>
    injection h with h1
    rw [← h1]
    exact List.mem_cons_self b t

/-- On a nonempty list, `getLast?` is `some` of its defaulted value. -/
theorem getLast?_eq_getD {l : List Message} (hne : l ≠ []) :
    l.getLast? = some ((l.getLast?).getD default) := by
  cases hopt : l.getLast? with
  | some a => rfl
  | none => exact absurd (List.getLast?_eq_none_iff.mp hopt) hne

/-- On a nonempty list, `head?` is `some` of its defaulted value. -/
theorem head?_eq_getD {l : List Message} (hne : l ≠ []) :
    l.head? = some ((l.head?).getD default) := by
  cases l with
  | nil => exact absurd rfl hne
  | cons b t => rfl

/-- Dropping the first of at least two elements keeps the last element. -/
theorem getLast?_drop_one {l : List Message} (h : 1 < l.length) :
    (l.drop 1).getLast? = l.getLast? := by
  cases l with
  | nil => simp at h
  | cons a t =>
    cases t with
    | nil => simp at h
    | cons b t2 =>
      simp only [List.drop_succ_cons, List.drop_zero]
      exact (List.getLast?_cons_cons).symm

/-- Dropping the last of at least two elements keeps the head. -/
theorem head?_dropLast {l : List Message} (h : 1 < l.length) :
    l.dropLast.head? = l.head? := by
  cases l with
  | nil => simp at h
  | cons a t =>
    cases t with
    | nil => simp at h
    | cons b t2 =>
      rw [List.dropLast_cons₂]
      rfl

/-- Base equation of the token-reduction loop. -/
theorem reduceTokensGo_zero (maxT : Nat) (pr : Bool) (l : List Message) :
    reduceTokensGo maxT pr 0 l = l := rfl

/-- Unfolding equation for one iteration of the token-reduction loop. -/
theorem reduceTokensGo_succ (maxT : Nat) (pr : Bool) (fuel : Nat) (l : List Message) :
    reduceTokensGo maxT pr (fuel + 1) l =
      if maxT < estimateTokens l ∧ 1 < l.length then
        reduceTokensGo maxT pr fuel (if pr then l.drop 1 else l.dropLast)
      else l := rfl

/-- The token-reduction loop never lengthens the list. -/
theorem reduceTokensGo_length_le (maxT : Nat) (pr : Bool) :
    ∀ fuel (l : List Message), (reduceTokensGo maxT pr fuel l).length ≤ l.length := by
  intro fuel
  induction fuel with
  | zero => intro l; exact le_refl _
  | succ fuel ih =>
    intro l
    rw [reduceTokensGo_succ]
    by_cases hcond : maxT < estimateTokens l ∧ 1 < l.length
    · rw [if_pos hcond]
      refine le_trans (ih _) ?_
      cases pr with
      | true =>
        rw [if_pos rfl, List.length_drop]
        omega
      | false =>
        rw [if_neg (by simp), List.length_dropLast]
        omega
    · rw [if_neg hcond]

/-- `reduceTokens` never lengthens the list. -/
theorem reduceTokens_length_le (l : List Message) (maxT : Nat) (pr : Bool) :
    (reduceTokens l maxT pr).length ≤ l.length := by
  unfold reduceTokens
  by_cases h0 : l.length = 0
  · rw [if_pos h0]
  · rw [if_neg h0]
    exact reduceTokensGo_length_le maxT pr l.length l

/-- Recent-priority reduction loop: the result is nonempty, keeps the final
message, and — when fuelled with at least `length - 1` iterations — either
meets the budget or is a single message. -/
theorem reduceTokensGo_spec_recent (maxT : Nat) :
    ∀ fuel (l : List Message), l ≠ [] →
      reduceTokensGo maxT true fuel l ≠ [] ∧
      (reduceTokensGo maxT true fuel l).getLast? = l.getLast? ∧
      (l.length ≤ fuel + 1 →
        estimateTokens (reduceTokensGo maxT true fuel l) ≤ maxT ∨
        (reduceTokensGo maxT true fuel l).length = 1) := by
  intro fuel
  induction fuel with
  | zero =>
    intro l hne
    refine ⟨hne, rfl, ?_⟩
    intro hlen
    right
    rw [reduceTokensGo_zero]
    have := List.length_pos.mpr hne
    omega
  | succ fuel ih =>
    intro l hne
    rw [reduceTokensGo_succ]
    by_cases hcond : maxT < estimateTokens l ∧ 1 < l.length
    · rw [if_pos hcond, if_pos rfl]
      have hdne : l.drop 1 ≠ [] := by
        rw [← List.length_pos, List.length_drop]
        omega
      obtain ⟨h1, h2, h3⟩ := ih (l.drop 1) hdne
      refine ⟨h1, ?_, ?_⟩
      · rw [h2, getLast?_drop_one hcond.2]
      · intro hlen
        apply h3
        rw [List.length_drop]
        omega
    · rw [if_neg hcond]
      push_neg at hcond
      refine ⟨hne, rfl, ?_⟩
      intro _
      by_cases hest : estimateTokens l ≤ maxT
      · exact Or.inl hest
      · right
        have h2 := hcond (by omega)
        have := List.length_pos.mpr hne
        omega

/-- Oldest-priority reduction loop: mirror image keeping the head message. -/
theorem reduceTokensGo_spec_oldest (maxT : Nat) :
    ∀ fuel (l : List Message), l ≠ [] →
      reduceTokensGo maxT false fuel l ≠ [] ∧
      (reduceTokensGo maxT false fuel l).head? = l.head? ∧
      (l.length ≤ fuel + 1 →
        estimateTokens (reduceTokensGo maxT false fuel l) ≤ maxT ∨
        (reduceTokensGo maxT false fuel l).length = 1) := by
  intro fuel
  induction fuel with
  | zero =>
    intro l hne
    refine ⟨hne, rfl, ?_⟩
    intro hlen
    right
    rw [reduceTokensGo_zero]
    have := List.length_pos.mpr hne
    omega
  | succ fuel ih =>
    intro l hne
    rw [reduceTokensGo_succ]
    by_cases hcond : maxT < estimateTokens l ∧ 1 < l.length
    · rw [if_pos hcond, if_neg (by simp)]
      have hdne : l.dropLast ≠ [] := by
        rw [← List.length_pos, List.length_dropLast]
        omega
      obtain ⟨h1, h2, h3⟩ := ih l.dropLast hdne
      refine ⟨h1, ?_, ?_⟩
      · rw [h2, head?_dropLast hcond.2]
      · intro hlen
        apply h3
        rw [List.length_dropLast]
        omega
    · rw [if_neg hcond]
      push_neg at hcond
      refine ⟨hne, rfl, ?_⟩
      intro _
      by_cases hest : estimateTokens l ≤ maxT
      · exact Or.inl hest
      · right
        have h2 := hcond (by omega)
        have := List.length_pos.mpr hne
        omega

/-- The message-count cap bounds the output by `min(length, maxMessages)` (for
a positive cap — see the counterexample for the `maxMessages = 0` quirk). -/
theorem applyMessageLimit_length_le (messages : List Message) (maxMessages : Nat)
    (pr : Bool) (hmax : 1 ≤ maxMessages) :
    (applyMessageLimit messages maxMessages pr).length ≤ min messages.length maxMessages := by
  unfold applyMessageLimit
  by_cases hlen : maxMessages < messages.length
  · rw [if_pos hlen]
    cases pr with
    | true =>
      rw [if_pos rfl]
      unfold jsSliceLast
      rw [if_neg (by omega : ¬maxMessages = 0), List.length_drop]
      exact le_min (by omega) (by omega)
    | false =>
      rw [if_neg (by simp), List.length_take]
      exact le_min (by omega) (by omega)
  · rw [if_neg hlen]
    exact le_min (le_refl _) (by omega)

/-- The message-count cap keeps a nonempty input nonempty (positive cap). -/
theorem applyMessageLimit_ne_nil (messages : List Message) (maxMessages : Nat)
    (pr : Bool) (hmax : 1 ≤ maxMessages) (hne : messages ≠ []) :
    applyMessageLimit messages maxMessages pr ≠ [] := by
  have hpos : 0 < messages.length := List.length_pos.mpr hne
  rw [← List.length_pos]
  unfold applyMessageLimit
  by_cases hlen : maxMessages < messages.length
  · rw [if_pos hlen]
    cases pr with
    | true =>
      rw [if_pos rfl]
      unfold jsSliceLast
      rw [if_neg (by omega : ¬maxMessages = 0), List.length_drop]
      omega
    | false =>
      rw [if_neg (by simp), List.length_take]
      exact lt_min (by omega) hpos
  · rw [if_neg hlen]
    exact hpos

/-- The duplicate-role pass never lengthens its input. -/
theorem claimFlowGo_length_le :
    ∀ (rest : List Message) (prev : Message),
      (claimFlowGo prev rest).length ≤ rest.length := by
  intro rest
  induction rest with
  | nil => intro prev; simp [claimFlowGo]
  | cons m rest ih =>
    intro prev
    rw [claimFlowGo_cons]
    by_cases hcond : m.role ≠ prev.role ∨ m.role = Role.user
    · rw [if_pos hcond]
      simp only [List.length_cons]
      exact Nat.succ_le_succ (ih m)
    · rw [if_neg hcond]
      exact le_trans (ih prev) (Nat.le_succ _)

/-- `ensureConversationFlow` never lengthens its input. -/
theorem ensureConversationFlow_length_le (l : List Message) :
    (ensureConversationFlow l).length ≤ l.length := by
  rw [ensureConversationFlow_eq_claimFlow]
  cases l with
  | nil => simp [claimFlow]
  | cons f rest =>
    unfold claimFlow
    simp only [List.length_cons]
    exact Nat.succ_le_succ (claimFlowGo_length_le rest f)

/-- The duplicate-role pass is the identity on singletons. -/
theorem ensureConversationFlow_singleton (x : Message) :
    ensureConversationFlow [x] = [x] := rfl

/-- A single user message used as concrete input. -/
def msgC4 : Message :=
  { id := "1", content := "hello", role := Role.user, timestampMs := 0, timestampValid := true }

/-- Counterexample to claim C4: with `maxMessages = 0` (JS `slice(-0)` is
`slice(0)`, the whole array) the output of `optimizeContext` has one message,
exceeding `min(length, maxMessages) = 0`. -/
theorem optimizeContext_maxMessages_zero_counterexample :
    ¬((optimizeContext [msgC4] 0 100000 true).messages.length ≤ min [msgC4].length 0) := by
  decide

/-- Claim C4 (amended to a positive `maxMessages`): the output length is at
most `min(length, maxMessages)`; and on a nonempty transcript, whenever the
budget covers the estimate of the single message the reduction loop cannot
drop (the most recent kept message under recent priority, the earliest
otherwise), the returned token estimate meets the budget, and otherwise the
kept messages reduce to exactly one. -/
theorem optimizeContext_bounds_amended (messages : List Message)
    (maxMessages maxTokens : Nat) (prioritizeRecent : Bool) (hmax : 1 ≤ maxMessages) :
    (optimizeContext messages maxMessages maxTokens prioritizeRecent).messages.length ≤
      min messages.length maxMessages ∧
    (messages ≠ [] →
      (estimateTokens [survivorMessage prioritizeRecent
          (applyMessageLimit messages maxMessages prioritizeRecent)] ≤ maxTokens →
        (optimizeContext messages maxMessages maxTokens prioritizeRecent).tokenEstimate ≤
          maxTokens) ∧
      (maxTokens < estimateTokens [survivorMessage prioritizeRecent
          (applyMessageLimit messages maxMessages prioritizeRecent)] →
        (optimizeContext messages maxMessages maxTokens prioritizeRecent).messages.length =
          1)) := by
  have hmsgs_pos : (optimizeContext messages maxMessages maxTokens prioritizeRecent).messages =
      ensureConversationFlow
        (if maxTokens <
            estimateTokens (applyMessageLimit messages maxMessages prioritizeRecent) then
          reduceTokens (applyMessageLimit messages maxMessages prioritizeRecent)
            maxTokens prioritizeRecent
        else applyMessageLimit messages maxMessages prioritizeRecent) := by
    simp only [optimizeContext]
    by_cases httoks : maxTokens <
        estimateTokens (applyMessageLimit messages maxMessages prioritizeRecent)
    · rw [if_pos httoks, if_pos httoks]
    · rw [if_neg httoks, if_neg httoks]
  have htok_eq : (optimizeContext messages maxMessages maxTokens prioritizeRecent).tokenEstimate =
      (if maxTokens <
          estimateTokens (applyMessageLimit messages maxMessages prioritizeRecent) then
        estimateTokens (reduceTokens (applyMessageLimit messages maxMessages prioritizeRecent)
          maxTokens prioritizeRecent)
      else estimateTokens (applyMessageLimit messages maxMessages prioritizeRecent)) := by
    simp only [optimizeContext]
    by_cases httoks : maxTokens <
        estimateTokens (applyMessageLimit messages maxMessages prioritizeRecent)
    · rw [if_pos httoks, if_pos httoks]
    · rw [if_neg httoks, if_neg httoks]
  refine ⟨?_, ?_⟩
  · rw [hmsgs_pos]
    refine le_trans (ensureConversationFlow_length_le _) ?_
    by_cases httoks : maxTokens <
        estimateTokens (applyMessageLimit messages maxMessages prioritizeRecent)
    · rw [if_pos httoks]
      exact le_trans (reduceTokens_length_le _ _ _)
        (applyMessageLimit_length_le messages maxMessages prioritizeRecent hmax)
    · rw [if_neg httoks]
      exact applyMessageLimit_length_le messages maxMessages prioritizeRecent hmax
  · intro hne
    have hsne : applyMessageLimit messages maxMessages prioritizeRecent ≠ [] :=
      applyMessageLimit_ne_nil messages maxMessages prioritizeRecent hmax hne
    have hsurvmem : survivorMessage prioritizeRecent
        (applyMessageLimit messages maxMessages prioritizeRecent) ∈
        applyMessageLimit messages maxMessages prioritizeRecent := by
      cases prioritizeRecent with
      | true =>
        unfold survivorMessage
        rw [if_pos rfl]
        exact mem_of_getLast?_some (getLast?_eq_getD hsne)
      | false =>
        unfold survivorMessage
        rw [if_neg (by simp)]
        exact mem_of_head?_some (head?_eq_getD hsne)
    have hfl_le : estimateTokens [survivorMessage prioritizeRecent
        (applyMessageLimit messages maxMessages prioritizeRecent)] ≤
        estimateTokens (applyMessageLimit messages maxMessages prioritizeRecent) :=
      estimate_single_le hsurvmem
    have hred_eq : reduceTokens (applyMessageLimit messages maxMessages prioritizeRecent)
        maxTokens prioritizeRecent =
        reduceTokensGo maxTokens prioritizeRecent
          (applyMessageLimit messages maxMessages prioritizeRecent).length
          (applyMessageLimit messages maxMessages prioritizeRecent) := by
      unfold reduceTokens
      rw [if_neg (fun h0 => hsne (List.length_eq_zero.mp h0))]
    constructor
    · intro hfloor
      rw [htok_eq]
      by_cases httoks : maxTokens <
          estimateTokens (applyMessageLimit messages maxMessages prioritizeRecent)
      · rw [if_pos httoks, hred_eq]
        cases prioritizeRecent with
        | true =>
          obtain ⟨h1, h2, h3⟩ := reduceTokensGo_spec_recent maxTokens
            (applyMessageLimit messages maxMessages true).length
            (applyMessageLimit messages maxMessages true) hsne
          rcases h3 (by omega) with hle | hone
          · exact hle
          · obtain ⟨x, hx⟩ := List.length_eq_one.mp hone
            rw [hx]
            have hxs : (applyMessageLimit messages maxMessages true).getLast? = some x := by
              rw [← h2, hx]
              rfl
            have hsurv : survivorMessage true (applyMessageLimit messages maxMessages true)
                = x := by
              unfold survivorMessage
              rw [if_pos rfl, hxs]
              rfl
            rw [← hsurv]
            exact hfloor
        | false =>
          obtain ⟨h1, h2, h3⟩ := reduceTokensGo_spec_oldest maxTokens
            (applyMessageLimit messages maxMessages false).length
            (applyMessageLimit messages maxMessages false) hsne
          rcases h3 (by omega) with hle | hone
          · exact hle
          · obtain ⟨x, hx⟩ := List.length_eq_one.mp hone
            rw [hx]
            have hxs : (applyMessageLimit messages maxMessages false).head? = some x := by
              rw [← h2, hx]
              rfl
            have hsurv : survivorMessage false (applyMessageLimit messages maxMessages false)
                = x := by
              unfold survivorMessage
              rw [if_neg (by simp), hxs]
              rfl
            rw [← hsurv]
            exact hfloor
      · rw [if_neg httoks]
        omega
    · intro hfloor2
      have httoks : maxTokens <
          estimateTokens (applyMessageLimit messages maxMessages prioritizeRecent) :=
        lt_of_lt_of_le hfloor2 hfl_le
      rw [hmsgs_pos, if_pos httoks, hred_eq]
      cases prioritizeRecent with
      | true =>
        obtain ⟨h1, h2, h3⟩ := reduceTokensGo_spec_recent maxTokens
          (applyMessageLimit messages maxMessages true).length
          (applyMessageLimit messages maxMessages true) hsne
        rcases h3 (by omega) with hle | hone
        · exfalso
          have hmem2 : survivorMessage true (applyMessageLimit messages maxMessages true) ∈
              reduceTokensGo maxTokens true
                (applyMessageLimit messages maxMessages true).length
                (applyMessageLimit messages maxMessages true) := by
            apply mem_of_getLast?_some
            rw [h2]
            unfold survivorMessage
            rw [if_pos rfl]
            exact getLast?_eq_getD hsne
          have := estimate_single_le hmem2
          omega
        · obtain ⟨x, hx⟩ := List.length_eq_one.mp hone
          rw [hx, ensureConversationFlow_singleton]
          rfl
      | false =>
        obtain ⟨h1, h2, h3⟩ := reduceTokensGo_spec_oldest maxTokens
          (applyMessageLimit messages maxMessages false).length
          (applyMessageLimit messages maxMessages false) hsne
        rcases h3 (by omega) with hle | hone
        · exfalso
          have hmem2 : survivorMessage false (applyMessageLimit messages maxMessages false) ∈
              reduceTokensGo maxTokens false
                (applyMessageLimit messages maxMessages false).length
                (applyMessageLimit messages maxMessages false) := by
            apply mem_of_head?_some
            rw [h2]
            unfold survivorMessage
            rw [if_neg (by simp)]
            exact head?_eq_getD hsne
          have := estimate_single_le hmem2
          omega
        · obtain ⟨x, hx⟩ := List.length_eq_one.mp hone
          rw [hx, ensureConversationFlow_singleton]
          rfl

/-- A second concrete message (assistant reply). -/
def msgC4b : Message :=
  { id := "2", content := "hi there", role := Role.assistant,
    timestampMs := 1, timestampValid := true }

/-- Concrete two-message transcript for the C4 witness. -/
def msgsC4W : List Message := [msgC4, msgC4b]

/-- Witness for the amended C4: two short user/assistant messages with
`maxMessages = 1` and a generous budget. -/
theorem optimizeContext_bounds_amended_witness :
    (optimizeContext msgsC4W 1 100000 true).messages.length ≤ min msgsC4W.length 1 ∧
    (msgsC4W ≠ [] →
      (estimateTokens [survivorMessage true (applyMessageLimit msgsC4W 1 true)] ≤ 100000 →
        (optimizeContext msgsC4W 1 100000 true).tokenEstimate ≤ 100000) ∧
      (100000 < estimateTokens [survivorMessage true (applyMessageLimit msgsC4W 1 true)] →
        (optimizeContext msgsC4W 1 100000 true).messages.length = 1)) :=
  optimizeContext_bounds_amended msgsC4W 1 100000 true (by decide)

/-! ### Rate Limiter (RateLimitService, src/services/rate-limit-service.ts)

Timestamps are JS epoch milliseconds (`Date.now()`), modelled as `Int`.  The
service state is the pair of mutable fields `messageTimestamps` and
`lastMessageTime`; `canSendMessage` also prunes old timestamps (through
`getMessagesInLastMinute` → `cleanupOldTimestamps`), so it returns the updated
state alongside the returned record. -/

/-- `RateLimitConfig`. -/
structure RateLimitConfig where
  maxMessagesPerMinute : Nat
  cooldownBetweenMessages : Int
  maxCharactersPerMessage : Nat
deriving DecidableEq, Repr

/-- `DEFAULT_RATE_LIMIT_CONFIG`: 10 per minute, 3000 ms cooldown, 200 chars. -/
def DEFAULT_RATE_LIMIT_CONFIG : RateLimitConfig :=
  { maxMessagesPerMinute := 10, cooldownBetweenMessages := 3000, maxCharactersPerMessage := 200 }

/-- Mutable fields of the service. -/
structure RateLimiter where
  messageTimestamps : List Int
  lastMessageTime : Int
deriving DecidableEq, Repr

/-- The returned record (`RateLimitState` in the source). -/
structure RateLimitState where
  canSendMessage : Bool
  remainingCooldown : Int
  messagesInLastMinute : Nat
  reason : Option String
deriving DecidableEq, Repr

/-- `cleanupOldTimestamps`: keep timestamps strictly newer than one minute ago. -/
def cleanupOldTimestamps (now : Int) (timestamps : List Int) : List Int :=
  timestamps.filter (fun timestamp => decide (now - 60000 < timestamp))

/-- The reason string of the rate-limit rejection branch. -/
def rateLimitReason (maxPerMinute : Nat) : String :=
  "Rate limit exceeded. Maximum " ++ toString maxPerMinute ++ " messages per minute."

/-- `RateLimitService.canSendMessage`: character-limit check, then cooldown
check, then sliding-window check; every branch reads
`getMessagesInLastMinute`, which prunes the stored timestamps.  Returns the
pruned state together with the source's returned record (`Math.ceil` of the
cooldown seconds is written as integer arithmetic on a positive remainder). -/
def canSendMessage (cfg : RateLimitConfig) (st : RateLimiter) (messageContent : String)
    (now : Int) : RateLimiter × RateLimitState :=
  let pruned := cleanupOldTimestamps now st.messageTimestamps
  let st1 : RateLimiter := { st with messageTimestamps := pruned }
  let messagesInLastMinute := pruned.length
  if cfg.maxCharactersPerMessage < messageContent.length then
    (st1, { canSendMessage := false, remainingCooldown := 0,
            messagesInLastMinute := messagesInLastMinute,
            reason := some ("Message too long (" ++ toString messageContent.length ++ "/" ++
              toString cfg.maxCharactersPerMessage ++ " characters)") })
  else
    let timeSinceLastMessage := now - st.lastMessageTime
    if timeSinceLastMessage < cfg.cooldownBetweenMessages then
      let remainingCooldown := cfg.cooldownBetweenMessages - timeSinceLastMessage
      (st1, { canSendMessage := false, remainingCooldown := remainingCooldown,
              messagesInLastMinute := messagesInLastMinute,
              reason := some ("Please wait " ++ toString ((remainingCooldown + 999) / 1000) ++
                " seconds before sending another message") })
    else if cfg.maxMessagesPerMinute ≤ messagesInLastMinute then
      (st1, { canSendMessage := false, remainingCooldown := 0,
              messagesInLastMinute := messagesInLastMinute,
              reason := some (rateLimitReason cfg.maxMessagesPerMinute) })
    else
      (st1, { canSendMessage := true, remainingCooldown := 0,
              messagesInLastMinute := messagesInLastMinute, reason := none })

/-- `RateLimitService.recordMessage`: set `lastMessageTime`, push the current
timestamp, then prune old ones (listener notification and the cooldown timer
carry no rate-limit state). -/
def recordMessage (st : RateLimiter) (now : Int) : RateLimiter :=
  { messageTimestamps := cleanupOldTimestamps now (st.messageTimestamps ++ [now]),
    lastMessageTime := now }

/-- Pruning at a later instant subsumes earlier pruning. -/
theorem cleanup_cleanup {now now2 : Int} (h : now ≤ now2) (timestamps : List Int) :
    cleanupOldTimestamps now2 (cleanupOldTimestamps now timestamps) =
      cleanupOldTimestamps now2 timestamps := by
  unfold cleanupOldTimestamps
  rw [List.filter_filter]
  apply List.filter_congr
  intro t _
  by_cases h2 : now2 - 60000 < t
  · rw [decide_eq_true h2, decide_eq_true (by omega : now - 60000 < t)]
    rfl
  · rw [decide_eq_false h2]
    simp

/-- Claim C6: with the candidate within the character limit and the cooldown
elapsed, once exactly `maxMessagesPerMinute` recorded timestamps lie in the
trailing 60 s window, `canSendMessage` returns `false` with the rate-limit
reason; and at every later instant it still returns `false` as long as at
least `maxMessagesPerMinute` recorded timestamps remain inside the window. -/
theorem rateLimit_window_blocks (cfg : RateLimitConfig) (st : RateLimiter)
    (messageContent : String) (now : Int)
    (hchars : messageContent.length ≤ cfg.maxCharactersPerMessage)
    (hcooldown : cfg.cooldownBetweenMessages ≤ now - st.lastMessageTime)
    (hwindow : (cleanupOldTimestamps now st.messageTimestamps).length =
      cfg.maxMessagesPerMinute) :
    (canSendMessage cfg st messageContent now).2.canSendMessage = false ∧
    (canSendMessage cfg st messageContent now).2.reason =
      some (rateLimitReason cfg.maxMessagesPerMinute) ∧
    ∀ now2, now ≤ now2 →
      cfg.maxMessagesPerMinute ≤ (cleanupOldTimestamps now2 st.messageTimestamps).length →
      ((canSendMessage cfg (canSendMessage cfg st messageContent now).1 messageContent
        now2).2.canSendMessage = false) := by
  have hrun : canSendMessage cfg st messageContent now =
      ({ st with messageTimestamps := cleanupOldTimestamps now st.messageTimestamps },
       { canSendMessage := false, remainingCooldown := 0,
         messagesInLastMinute := (cleanupOldTimestamps now st.messageTimestamps).length,
         reason := some (rateLimitReason cfg.maxMessagesPerMinute) }) := by
    unfold canSendMessage
    rw [if_neg (by omega), if_neg (by omega), if_pos (by omega)]
  refine ⟨by rw [hrun], by rw [hrun], ?_⟩
  intro now2 hle hcount2
  rw [hrun]
  have hcount2b : cfg.maxMessagesPerMinute ≤
      (cleanupOldTimestamps now2
        (cleanupOldTimestamps now st.messageTimestamps)).length := by
    rw [cleanup_cleanup hle]
    exact hcount2
  unfold canSendMessage
  by_cases hchars2 : cfg.maxCharactersPerMessage < messageContent.length
  · rw [if_pos hchars2]
  · rw [if_neg hchars2]
    by_cases hcd2 : now2 - ({ st with
        messageTimestamps := cleanupOldTimestamps now st.messageTimestamps } :
          RateLimiter).lastMessageTime < cfg.cooldownBetweenMessages
    · rw [if_pos hcd2]
    · rw [if_neg hcd2, if_pos hcount2b]

/-- Witness timestamps: two sends recorded at 1000 ms and 2000 ms. -/
def witnessLimiter : RateLimiter :=
  { messageTimestamps := [1000, 2000], lastMessageTime := 2000 }

/-- A rate-limit configuration allowing 2 messages per minute. -/
def witnessRateCfg : RateLimitConfig :=
  { maxMessagesPerMinute := 2, cooldownBetweenMessages := 3000, maxCharactersPerMessage := 200 }

/-- Witness for C6: at t = 10000 ms with both sends in the window, the third
send is rejected with the rate-limit reason and stays rejected at t = 20000. -/
theorem rateLimit_window_blocks_witness :
    (canSendMessage witnessRateCfg witnessLimiter "hi" 10000).2.canSendMessage = false ∧
    (canSendMessage witnessRateCfg witnessLimiter "hi" 10000).2.reason =
      some (rateLimitReason witnessRateCfg.maxMessagesPerMinute) ∧
    ∀ now2, (10000 : Int) ≤ now2 →
      witnessRateCfg.maxMessagesPerMinute ≤
        (cleanupOldTimestamps now2 witnessLimiter.messageTimestamps).length →
      ((canSendMessage witnessRateCfg
        (canSendMessage witnessRateCfg witnessLimiter "hi" 10000).1 "hi"
        now2).2.canSendMessage = false) :=
  rateLimit_window_blocks witnessRateCfg witnessLimiter "hi" 10000
    (by decide) (by decide) (by decide)

/-- Claim C10: `canSendMessage` never changes `lastMessageTime`, only discards
timestamps older than 60 s (the kept list is a sublist and every dropped
timestamp is stale), leaves the count of sends inside the trailing window
unchanged, and returns the same pruned state in every branch; only
`recordMessage` appends the current instant and moves the cooldown deadline. -/
theorem rateLimit_check_is_readonly (cfg : RateLimitConfig) (st : RateLimiter)
    (messageContent : String) (now : Int) :
    (canSendMessage cfg st messageContent now).1.lastMessageTime = st.lastMessageTime ∧
    List.Sublist (canSendMessage cfg st messageContent now).1.messageTimestamps
      st.messageTimestamps ∧
    (∀ t ∈ st.messageTimestamps,
      t ∉ (canSendMessage cfg st messageContent now).1.messageTimestamps →
      t ≤ now - 60000) ∧
    (cleanupOldTimestamps now
        (canSendMessage cfg st messageContent now).1.messageTimestamps).length =
      (cleanupOldTimestamps now st.messageTimestamps).length ∧
    (recordMessage st now).lastMessageTime = now ∧
    now ∈ (recordMessage st now).messageTimestamps := by
  have hstate : (canSendMessage cfg st messageContent now).1 =
      { st with messageTimestamps := cleanupOldTimestamps now st.messageTimestamps } := by
    unfold canSendMessage
    by_cases h1 : cfg.maxCharactersPerMessage < messageContent.length
    · rw [if_pos h1]
    · rw [if_neg h1]
      by_cases h2 : now - st.lastMessageTime < cfg.cooldownBetweenMessages
      · rw [if_pos h2]
      · rw [if_neg h2]
        by_cases h3 : cfg.maxMessagesPerMinute ≤
            (cleanupOldTimestamps now st.messageTimestamps).length
        · rw [if_pos h3]
        · rw [if_neg h3]
  rw [hstate]
  refine ⟨rfl, List.filter_sublist _, ?_, ?_, rfl, ?_⟩
  · intro t hmem hnot
    by_contra hgt
    exact hnot (List.mem_filter.mpr ⟨hmem, decide_eq_true (by omega)⟩)
  · show (cleanupOldTimestamps now (cleanupOldTimestamps now st.messageTimestamps)).length = _
    rw [cleanup_cleanup (le_refl now)]
  · unfold recordMessage cleanupOldTimestamps
    apply List.mem_filter.mpr
    exact ⟨List.mem_append_right _ (List.mem_singleton_self now),
      decide_eq_true (by omega)⟩

/-! ### Persistence Store (SessionStorageService,
src/services/session-storage-service.ts)

`sessionStorage` interactions are modelled by their observable outcomes: the
quota estimate consulted before writing (`isApproachingStorageQuota`) and the
outcome of each `setItem` call — success, a quota-exceeded throw
(`isStorageQuotaError` true), or any other throw. -/

/-- `MAX_MESSAGES` (50). -/
def MAX_MESSAGES : Nat := 50

/-- `limitMessages`: keep the `maxMessages` most recent (`slice(-maxMessages)`
guarded by a length check, so the JS `-0` quirk cannot arise here). -/
def limitMessages (messages : List Message) (maxMessages : Nat := MAX_MESSAGES) :
    List Message :=
  if messages.length ≤ maxMessages then messages
  else messages.drop (messages.length - maxMessages)

/-- Outcome of one `sessionStorage.setItem` call. -/
inductive WriteOutcome
  | ok
  | quotaExceeded
  | failed
deriving DecidableEq, Repr

/-- Environment of one `saveMessages` run: the quota estimate and the outcomes
of the (at most two) `setItem` calls. -/
structure SaveEnv where
  approachingQuota : Bool
  firstWriteOutcome : WriteOutcome
  retryWriteOutcome : WriteOutcome
deriving DecidableEq, Repr

/-- Observable result of `saveMessages`: returned boolean, the message window
that ended up stored (if any write succeeded), whether the persisted state was
cleared before the retry, and how many `setItem` calls were made. -/
structure SaveResult where
  ok : Bool
  written : Option (List Message)
  clearedFirst : Bool
  writeAttempts : Nat
deriving DecidableEq, Repr

/-- `SessionStorageService.saveMessages`: cap at 50 messages; when the quota
estimate says the write would exceed the buffered quota, write a window of
`floor(MAX_MESSAGES / 2)` instead; if the write throws a quota error, clear
storage and retry exactly once with the 10 most recent; a retry throw (or any
non-quota throw) returns `false`. -/
def saveMessages (env : SaveEnv) (messages : List Message) : SaveResult :=
  let payload :=
    if env.approachingQuota then limitMessages messages (MAX_MESSAGES / 2)
    else limitMessages messages
  match env.firstWriteOutcome with
  | .ok => { ok := true, written := some payload, clearedFirst := false, writeAttempts := 1 }
  | .quotaExceeded =>
    match env.retryWriteOutcome with
    | .ok => { ok := true, written := some (limitMessages messages 10),
               clearedFirst := true, writeAttempts := 2 }
    | _ => { ok := false, written := none, clearedFirst := true, writeAttempts := 2 }
  | .failed => { ok := false, written := none, clearedFirst := false, writeAttempts := 1 }

/-- Claim C7: an over-quota estimate makes `saveMessages` succeed with a
reduced window of `floor(maxMessages / 2) = 25` most-recent messages; a
quota-exceeded throw clears storage and retries exactly once with the 10 most
recent; a throwing retry yields `false` with no further attempts. -/
theorem saveMessages_quota_degradation (env : SaveEnv) (messages : List Message)
    (hq : env.approachingQuota = true) :
    (env.firstWriteOutcome = .ok →
      saveMessages env messages =
        { ok := true, written := some (limitMessages messages (MAX_MESSAGES / 2)),
          clearedFirst := false, writeAttempts := 1 } ∧
      MAX_MESSAGES / 2 = 25 ∧
      (limitMessages messages (MAX_MESSAGES / 2)).length ≤ MAX_MESSAGES / 2 ∧
      List.IsSuffix (limitMessages messages (MAX_MESSAGES / 2)) messages) ∧
    (env.firstWriteOutcome = .quotaExceeded →
      (saveMessages env messages).clearedFirst = true ∧
      (saveMessages env messages).writeAttempts = 2 ∧
      (env.retryWriteOutcome = .ok →
        saveMessages env messages =
          { ok := true, written := some (limitMessages messages 10),
            clearedFirst := true, writeAttempts := 2 } ∧
        (limitMessages messages 10).length ≤ 10 ∧
        List.IsSuffix (limitMessages messages 10) messages) ∧
      (env.retryWriteOutcome ≠ .ok → (saveMessages env messages).ok = false)) := by
  have hsuffix : ∀ k, List.IsSuffix (limitMessages messages k) messages := by
    intro k
    unfold limitMessages
    by_cases h : messages.length ≤ k
    · rw [if_pos h]
    · rw [if_neg h]
      exact List.drop_suffix _ _
  have hlen : ∀ k, (limitMessages messages k).length ≤ k ∨
      limitMessages messages k = messages ∧ messages.length ≤ k := by
    intro k
    unfold limitMessages
    by_cases h : messages.length ≤ k
    · rw [if_pos h]
      exact Or.inr ⟨rfl, h⟩
    · rw [if_neg h]
      left
      rw [List.length_drop]
      omega
  have hlen2 : ∀ k, (limitMessages messages k).length ≤ k := by
    intro k
    rcases hlen k with h | ⟨heq, hle⟩
    · exact h
    · rw [heq]
      exact hle
  constructor
  · intro hfirst
    refine ⟨?_, rfl, hlen2 _, hsuffix _⟩
    unfold saveMessages
    rw [hfirst, hq]
    rfl
  · intro hfirst
    have hrun : ∀ r, env.retryWriteOutcome = r →
        saveMessages env messages =
          (match r with
          | WriteOutcome.ok =>
            { ok := true, written := some (limitMessages messages 10),
              clearedFirst := true, writeAttempts := 2 }
          | _ => { ok := false, written := none, clearedFirst := true,
                   writeAttempts := 2 }) := by
      intro r hr
      unfold saveMessages
      rw [hfirst, hr]
    refine ⟨?_, ?_, ?_, ?_⟩
    · rw [hrun env.retryWriteOutcome rfl]
      cases env.retryWriteOutcome <;> rfl
    · rw [hrun env.retryWriteOutcome rfl]
      cases env.retryWriteOutcome <;> rfl
    · intro hretry
      rw [hrun .ok hretry]
      exact ⟨rfl, hlen2 _, hsuffix _⟩
    · intro hretry
      rw [hrun env.retryWriteOutcome rfl]
      cases hr : env.retryWriteOutcome with
      | ok => exact absurd hr hretry
      | quotaExceeded => rfl
      | failed => rfl

/-- Environment for the C7 witness: quota estimate high, first write succeeds. -/
def envC7 : SaveEnv :=
  { approachingQuota := true, firstWriteOutcome := .ok, retryWriteOutcome := .ok }

/-- Three-message transcript for the C7 witness. -/
def msgsC7 : List Message := [msgC4, msgC4b, msgC4]

/-- Witness for C7 at a concrete environment and transcript. -/
theorem saveMessages_quota_degradation_witness :
    (envC7.firstWriteOutcome = WriteOutcome.ok →
      saveMessages envC7 msgsC7 =
        { ok := true, written := some (limitMessages msgsC7 (MAX_MESSAGES / 2)),
          clearedFirst := false, writeAttempts := 1 } ∧
      MAX_MESSAGES / 2 = 25 ∧
      (limitMessages msgsC7 (MAX_MESSAGES / 2)).length ≤ MAX_MESSAGES / 2 ∧
      List.IsSuffix (limitMessages msgsC7 (MAX_MESSAGES / 2)) msgsC7) ∧
    (envC7.firstWriteOutcome = WriteOutcome.quotaExceeded →
      (saveMessages envC7 msgsC7).clearedFirst = true ∧
      (saveMessages envC7 msgsC7).writeAttempts = 2 ∧
      (envC7.retryWriteOutcome = WriteOutcome.ok →
        saveMessages envC7 msgsC7 =
          { ok := true, written := some (limitMessages msgsC7 10),
            clearedFirst := true, writeAttempts := 2 } ∧
        (limitMessages msgsC7 10).length ≤ 10 ∧
        List.IsSuffix (limitMessages msgsC7 10) msgsC7) ∧
      (envC7.retryWriteOutcome ≠ WriteOutcome.ok →
        (saveMessages envC7 msgsC7).ok = false)) :=
  saveMessages_quota_degradation envC7 msgsC7 (by decide)

/-! ### Loading persisted transcripts (`SessionStorageService.loadMessages`) -/

/-- One JS field of a persisted message object: absent, a string, or some
non-string value. -/
inductive JsField
  | absent
  | str (s : String)
  | nonStringVal
deriving DecidableEq, Repr

/-- Shape of one persisted message object after `JSON.parse`, together with
how `new Date(timestamp)` behaves on its timestamp field: `tsEpochMs` is the
resulting clock value and `tsParsable` whether that `Date` is valid — JS
`new Date(x)` always yields a `Date` object, an *Invalid Date* when `x` does
not parse. -/
structure RawMessage where
  id : JsField
  content : JsField
  role : JsField
  timestamp : JsField
  tsParsable : Bool
  tsEpochMs : Int
deriving DecidableEq, Repr

/-- One element of the persisted `messages` array: `nullish` (null or
undefined — the `msg.timestamp` access in the map step throws a `TypeError`)
or an object-like value. -/
inductive RawEntry
  | nullish
  | obj (m : RawMessage)
deriving DecidableEq, Repr

/-- The persisted payload as seen by `loadMessages`. -/
inductive StoredPayload
  | unparsable
  | noArray
  | arr (entries : List RawEntry)
deriving DecidableEq, Repr

/-- Result of `loadMessages`: the transcript plus whether storage was cleared. -/
structure LoadResult where
  messages : List Message
  cleared : Bool
deriving DecidableEq, Repr

/-- `isValidMessage` applied to a mapped entry.  The source checks
`typeof id === 'string'`, `typeof content === 'string'`,
`role === 'user' || role === 'assistant'` and `timestamp instanceof Date`; the
final check is always true after the map step replaced `timestamp` by
`new Date(msg.timestamp)`, which is why it appears here as `&& true`. -/
def isValidMappedMessage (m : RawMessage) : Bool :=
  (match m.id with | .str _ => true | _ => false) &&
  ((match m.content with | .str _ => true | _ => false) &&
  ((match m.role with
    | .str r => r = "user" || r = "assistant"
    | _ => false) &&
  true))

/-- The `Message` value a kept entry turns into. -/
def mkLoadedMessage (m : RawMessage) : Message :=
  { id := (match m.id with | .str s => s | _ => ""),
    content := (match m.content with | .str s => s | _ => ""),
    role := (match m.role with
      | .str r => if r = "user" then Role.user else Role.assistant
      | _ => Role.assistant),
    timestampMs := m.tsEpochMs,
    timestampValid := m.tsParsable }

/-- `SessionStorageService.loadMessages`: nothing stored loads an empty
transcript without clearing; an unparsable payload or a missing/non-array
`messages` field clears storage and returns the empty transcript; a null
element makes the timestamp-rehydration map throw, reaching the same catch
(clear and return empty); otherwise each object entry is kept exactly when
`isValidMessage` accepts its mapped form. -/
def loadMessages : Option StoredPayload → LoadResult
  | none => { messages := [], cleared := false }
  | some .unparsable => { messages := [], cleared := true }
  | some .noArray => { messages := [], cleared := true }
  | some (.arr entries) =>
    if entries.any (fun e => match e with | .nullish => true | _ => false) then
      { messages := [], cleared := true }
    else
      { messages := entries.filterMap (fun e =>
          match e with
          | .nullish => none
          | .obj m => if isValidMappedMessage m then some (mkLoadedMessage m) else none),
        cleared := false }

/-- A persisted message with an empty id and an unparsable timestamp (which
the claim says must be dropped). -/
def badRaw : RawMessage :=
  { id := .str "", content := .str "hi", role := .str "user",
    timestamp := .str "not a date", tsParsable := false, tsEpochMs := 0 }

/-- Counterexample to claim C9: a persisted entry with an empty-string id and
an unparsable timestamp is returned by `loadMessages`, not dropped — the
validation only checks `typeof id === 'string'` and `instanceof Date`, and the
rehydrated `new Date('not a date')` is still a `Date` object. -/
theorem loadMessages_keeps_invalid_counterexample :
    (loadMessages (some (.arr [.obj badRaw]))).messages =
      [{ id := "", content := "hi", role := Role.user, timestampMs := 0,
         timestampValid := false }] ∧
    (loadMessages (some (.arr [.obj badRaw]))).messages ≠ [] := by
  exact ⟨by decide, by decide⟩

/-- Keep-or-drop rule as amended: an object entry is kept exactly when its id
and content are strings (empty allowed) and its role is the string `user` or
`assistant`; timestamp parsability is not checked. -/
def amendedValidEntry : RawEntry → Bool
  | .nullish => false
  | .obj m =>
    (match m.id with | .str _ => true | _ => false) &&
    ((match m.content with | .str _ => true | _ => false) &&
    (match m.role with
      | .str r => r = "user" || r = "assistant"
      | _ => false))

/-- The amended rule agrees with the source's mapped validation. -/
theorem amendedValidEntry_eq (m : RawMessage) :
    amendedValidEntry (.obj m) = isValidMappedMessage m := by
  unfold amendedValidEntry isValidMappedMessage
  rw [Bool.and_true]

/-- Unfolding equation of `loadMessages` on an array payload. -/
theorem loadMessages_arr (entries : List RawEntry) :
    loadMessages (some (.arr entries)) =
      if entries.any (fun e => match e with | .nullish => true | _ => false) then
        { messages := [], cleared := true }
      else
        { messages := entries.filterMap (fun e =>
            match e with
            | .nullish => none
            | .obj m => if isValidMappedMessage m then some (mkLoadedMessage m) else none),
          cleared := false } := rfl

/-- Claim C9 (amended): nothing stored loads empty without clearing; an
unparsable payload or non-array `messages` field clears storage and returns
the empty transcript; a null entry anywhere in the array aborts the whole load
(clear, empty transcript) rather than being dropped individually; and in a
null-free array exactly the entries with string id (possibly empty), string
content and role `user`/`assistant` are kept, in order, with no check on
timestamp parsability. -/
theorem loadMessages_validation_amended :
    loadMessages none = { messages := [], cleared := false } ∧
    loadMessages (some .unparsable) = { messages := [], cleared := true } ∧
    loadMessages (some .noArray) = { messages := [], cleared := true } ∧
    (∀ entries, RawEntry.nullish ∈ entries →
      loadMessages (some (.arr entries)) = { messages := [], cleared := true }) ∧
    (∀ entries, RawEntry.nullish ∉ entries →
      loadMessages (some (.arr entries)) =
        { messages := entries.filterMap (fun e =>
            match e with
            | .nullish => none
            | .obj m =>
              if amendedValidEntry (.obj m) then some (mkLoadedMessage m) else none),
          cleared := false }) := by
  refine ⟨rfl, rfl, rfl, ?_, ?_⟩
  · intro entries hmem
    rw [loadMessages_arr, if_pos]
    rw [List.any_eq_true]
    exact ⟨.nullish, hmem, rfl⟩
  · intro entries hmem
    rw [loadMessages_arr, if_neg]
    · have hfun : (fun (e : RawEntry) =>
          match e with
          | .nullish => none
          | .obj m =>
            if amendedValidEntry (.obj m) then some (mkLoadedMessage m) else none) =
          (fun (e : RawEntry) =>
          match e with
          | .nullish => none
          | .obj m => if isValidMappedMessage m then some (mkLoadedMessage m) else none) := by
        funext e
        cases e with
        | nullish => rfl
        | obj m =>
          show (if amendedValidEntry (.obj m) then some (mkLoadedMessage m) else none) =
            (if isValidMappedMessage m then some (mkLoadedMessage m) else none)
          rw [amendedValidEntry_eq]
      rw [hfun]
    · rw [List.any_eq_true]
      rintro ⟨e, he, hmatch⟩
      cases e with
      | nullish => exact hmem he
      | obj m => exact Bool.false_ne_true hmatch

/-- Witness for the amended C9: the single-entry array holding `badRaw` is
null-free, and the load keeps that entry. -/
theorem loadMessages_validation_amended_witness :
    loadMessages (some (.arr [.obj badRaw])) =
      { messages := [RawEntry.obj badRaw].filterMap (fun e =>
          match e with
          | .nullish => none
          | .obj m =>
            if amendedValidEntry (.obj m) then some (mkLoadedMessage m) else none),
        cleared := false } :=
  loadMessages_validation_amended.2.2.2.2 [.obj badRaw] (by decide)

end PersonalWebsite
